import Mathlib

/-!
Verification of the level-manager repository: a shallow embedding of the
connection/reconciliation engine, hotkey matching and dispatch, group
management and the toggle/retry flows of `level_manager.py`, together with
the variant hotkey/toggle logic of `level_toggle.py`.

Python dictionaries are embedded as association lists with unique keys kept
in insertion order; Python exceptions caught inside a function are folded
into its returned value, and exceptions escaping a function are made
explicit in its result type.
-/

namespace LevelManager

/-! ### Python string semantics helpers -/

/-- Python `s.lower()` (ASCII model). -/
def pyLower (s : String) : String := ⟨s.data.map Char.toLower⟩

/-- Python `s.upper()` (ASCII model). -/
def pyUpper (s : String) : String := ⟨s.data.map Char.toUpper⟩

/-- Python `s.isdigit()`: non-empty and all digits (ASCII model). -/
def pyIsdigit (s : String) : Bool := !s.data.isEmpty && s.data.all Char.isDigit

/-- Whether the character list `pat` occurs at the start of `l`. -/
def leadsWith : List Char → List Char → Bool
  | [], _ => true
  | _ :: _, [] => false
  | a :: as, b :: bs => a == b && leadsWith as bs

/-- Whether the character list `pat` occurs contiguously anywhere in `l`. -/
def occursIn (pat : List Char) : List Char → Bool
  | [] => leadsWith pat []
  | c :: rest => leadsWith pat (c :: rest) || occursIn pat rest

/-- Python `pat in s` substring containment. -/
def strContains (s pat : String) : Bool := occursIn pat.data s.data

/-- Python `ord((c : 1-char string).upper())`, 0 on the empty string.
The callers guard with a length check, so the 0 default is never observable. -/
def pyOrdUpper (s : String) : Nat :=
  match (pyUpper s).data with
  | c :: _ => c.toNat
  | [] => 0

/-- Python `s.strip()` restricted to ASCII whitespace. -/
def pyStrip (s : String) : String :=
  ⟨(s.data.dropWhile Char.isWhitespace).reverse.dropWhile Char.isWhitespace |>.reverse⟩

/-- Split a character list at every occurrence of `sep`. -/
def splitCharAux (sep : Char) : List Char → List Char → List (List Char)
  | acc, [] => [acc.reverse]
  | acc, c :: rest =>
    if c == sep then acc.reverse :: splitCharAux sep [] rest
    else splitCharAux sep (c :: acc) rest

/-- Python `s.split('+')`. -/
def splitPlus (s : String) : List String :=
  (splitCharAux '+' [] s.data).map (fun cs => ⟨cs⟩)

/-! ### Association lists as Python dicts (unique keys, insertion order) -/

/-- Python `d.get(k)` / `d[k]` lookup. -/
def dictGet {β : Type} (k : String) : List (String × β) → Option β
  | [] => none
  | p :: rest => if p.1 = k then some p.2 else dictGet k rest

/-- Python `d[k] = v`: overwrite in place if present, else append. -/
def dictSet {β : Type} (k : String) (v : β) : List (String × β) → List (String × β)
  | [] => [(k, v)]
  | p :: rest => if p.1 = k then (k, v) :: rest else p :: dictSet k v rest

/-- Python `d.pop(k)` / `del d[k]` (the removal part). -/
def dictRemove {β : Type} (k : String) : List (String × β) → List (String × β)
  | [] => []
  | p :: rest => if p.1 = k then dictRemove k rest else p :: dictRemove k rest

/-! ### UI-tree and data model -/

/-- A live UIA child element of a tree item, as the scanners see it:
its control type, automation id, its text value for Edit controls
(`none` models both a missing value interface and a falsy value), and
whether calling `Invoke()` on it succeeds (`false` models the call raising). -/
structure UIChild where
  controlType : String
  automationId : String
  value : Option String
  invokeOk : Bool
deriving DecidableEq, Repr

/-- A cached TreeItem handle. `childrenRes = none` models `item.children()`
raising because the underlying element was destroyed. -/
structure UIItem where
  windowText : String
  childrenRes : Option (List UIChild)
deriving DecidableEq, Repr

/-- One scanned level record (the dicts produced by `scan_levels`). -/
structure LevelRec where
  number : String
  name : String
  item : Option UIItem
  visBtn : Option UIChild
deriving DecidableEq, Repr

/-- A hotkey dict `{"key": trigger, "modifiers": sorted list}`. -/
structure Hotkey where
  key : String
  modifiers : List String
deriving DecidableEq, Repr

/-- A group record `{"levels": [...], "hotkey": ... or None}`. -/
structure Group where
  levels : List String
  hotkey : Option Hotkey
deriving DecidableEq, Repr

/-- The persistent metadata the app mutates: `self.hotkeys` and `self.groups`. -/
structure AppState where
  hotkeys : List (String × Hotkey)
  groups : List (String × Group)
deriving DecidableEq, Repr

/-! ### Pressed keys (pynput model)

A `keyboard.Key` member (named key) has a `name` and no `char`/`vk`
attribute; a `keyboard.KeyCode` has `char` (possibly `None`) and `vk`.
`namedKey = some n` models the named key `keyboard.Key.n`; for a `KeyCode`,
`namedKey = none`. A falsy `char`/`vk` is folded into `none`/the 0 check. -/
structure PressedKey where
  namedKey : Option String
  char : Option Char
  vk : Option Nat
deriving DecidableEq, Repr

/-- `_is_ctrl` from both scripts. -/
def isCtrlKey (k : PressedKey) : Bool :=
  k.namedKey = some "ctrl_l" || k.namedKey = some "ctrl_r" || k.namedKey = some "ctrl"

/-- `_is_alt` from both scripts. -/
def isAltKey (k : PressedKey) : Bool :=
  k.namedKey = some "alt_l" || k.namedKey = some "alt_r" || k.namedKey = some "alt"
    || k.namedKey = some "alt_gr"

/-- `_is_shift` from both scripts. -/
def isShiftKey (k : PressedKey) : Bool :=
  k.namedKey = some "shift" || k.namedKey = some "shift_l" || k.namedKey = some "shift_r"

/-- `_is_modifier` from `level_manager.py`. -/
def isModifierKey (k : PressedKey) : Bool := isCtrlKey k || isAltKey k || isShiftKey k

/-- The named function keys `keyboard.Key.f1 .. f20` that
`getattr(keyboard.Key, trigger)` can resolve for an f-trigger. -/
def fkeyNames : List String :=
  ["f1", "f2", "f3", "f4", "f5", "f6", "f7", "f8", "f9", "f10",
   "f11", "f12", "f13", "f14", "f15", "f16", "f17", "f18", "f19", "f20"]

/-! ### `hotkey_matches` (level_manager.py, lines 282-303) -/

/-- `hotkey_matches(hk, key, ctrl_held, alt_held, shift_held)`.
`getattr(keyboard.Key, trigger, None)` is modeled by membership of the
trigger in `fkeyNames` (on a miss the comparison with `None` is false). -/
def hotkey_matches (hk : Option Hotkey) (key : PressedKey)
    (ctrl_held alt_held shift_held : Bool) : Bool :=
  match hk with
  | none => false
  | some h =>
    if (h.modifiers.contains "ctrl") != ctrl_held then false
    else if (h.modifiers.contains "alt") != alt_held then false
    else if (h.modifiers.contains "shift") != shift_held then false
    else
      let trigger := h.key
      if leadsWith ['f'] trigger.data && pyIsdigit ⟨trigger.data.drop 1⟩ then
        fkeyNames.contains trigger && key.namedKey = some trigger
      else
        match key.char with
        | some c => pyLower ⟨[c]⟩ == pyLower trigger
        | none =>
          match key.vk with
          | some v =>
            if v ≠ 0 && trigger.length = 1 then v == pyOrdUpper trigger else false
          | none => false

/-! ### `parse_hotkey` / `check_hotkey` (level_toggle.py, lines 160-182 and 237-259) -/

/-- The result of `parse_hotkey`. -/
structure ParsedHotkey where
  needCtrl : Bool
  needAlt : Bool
  needShift : Bool
  triggerChar : Option String
  triggerFkey : Option String
deriving DecidableEq, Repr

/-- One pass of the `parse_hotkey` loop body over a lowered, stripped part.
`getattr(keyboard.Key, p)` is modeled by the key name itself. -/
def parseHotkeyStep (acc : ParsedHotkey) (p : String) : ParsedHotkey :=
  if p = "ctrl" || p = "control" then { acc with needCtrl := true }
  else if p = "shift" then { acc with needShift := true }
  else if p = "alt" then { acc with needAlt := true }
  else if leadsWith ['f'] p.data && pyIsdigit ⟨p.data.drop 1⟩ then
    { acc with triggerFkey := some p }
  else { acc with triggerChar := some p }

/-- `parse_hotkey(key_str)`. -/
def parseHotkey (s : String) : ParsedHotkey :=
  ((splitPlus (pyLower s)).map pyStrip).foldl parseHotkeyStep
    ⟨false, false, false, none, none⟩

/-- `check_hotkey(key)` from `level_toggle.py`: required modifiers must be
held, but extra held modifiers are not checked. -/
def checkHotkey (ph : ParsedHotkey) (key : PressedKey)
    (ctrl_held alt_held shift_held : Bool) : Bool :=
  if ph.needCtrl && !ctrl_held then false
  else if ph.needAlt && !alt_held then false
  else if ph.needShift && !shift_held then false
  else
    match ph.triggerFkey with
    | some f => key.namedKey = some f
    | none =>
      match ph.triggerChar with
      | some t =>
        match key.char with
        | some c => pyLower ⟨[c]⟩ == t
        | none =>
          match key.vk with
          | some v => if v ≠ 0 then v == pyOrdUpper t else false
          | none => false
      | none => false

/-! ### `toggle_visibility` (level_manager.py, lines 229-253) -/

/-- Whether a live child is the visibility toggle control and invoking it
succeeds; a raising `Invoke()` is caught by the per-child handler and the
loop continues, so success means some child matches and invokes cleanly. -/
def isWorkingVisButton (c : UIChild) : Bool :=
  c.controlType == "Button" && c.automationId == "IsLevelVisibleButton" && c.invokeOk

/-- `toggle_visibility(level)`: every exception is caught and reported as
`false`; the cached `vis_btn` wrapper is deliberately not used. -/
def toggle_visibility (level : LevelRec) : Bool :=
  match level.item with
  | none => false
  | some it =>
    match it.childrenRes with
    | none => false
    | some children => children.any isWorkingVisButton

/-! ### `toggle_level_visibility` (level_toggle.py, lines 136-145) -/

/-- Result of a Python call that may raise to its caller. -/
inductive PyOutcome where
  | ok
  | raised (msg : String)
deriving DecidableEq, Repr

/-- `toggle_level_visibility(item)`: per-child exceptions are caught, but a
destroyed item or a missing button raises to the caller. This variant does
not check the control type, only the automation id. -/
def toggle_level_visibility (item : UIItem) : PyOutcome :=
  match item.childrenRes with
  | none => .raised "item.children() raised"
  | some children =>
    if children.any (fun c => c.automationId == "IsLevelVisibleButton" && c.invokeOk)
    then .ok
    else .raised "IsLevelVisibleButton not found"

/-! ### `scan_levels` (level_manager.py, lines 179-226) -/

/-- The child loop of `scan_levels`: accumulates the first all-digit Edit
value as the number, the last non-digit truthy Edit value as the name, and
the last matching visibility button. -/
def scanLoop (number name : Option String) (visBtn : Option UIChild) :
    List UIChild → Option String × Option String × Option UIChild
  | [] => (number, name, visBtn)
  | c :: rest =>
    if c.controlType == "Edit" then
      match c.value with
      | some v =>
        if v ≠ "" then
          if pyIsdigit v && number.isNone then scanLoop (some v) name visBtn rest
          else if !pyIsdigit v then scanLoop number (some v) visBtn rest
          else scanLoop number name visBtn rest
        else scanLoop number name visBtn rest
      | none => scanLoop number name visBtn rest
    else if c.controlType == "Button" && c.automationId == "IsLevelVisibleButton" then
      scanLoop number name (some c) rest
    else scanLoop number name visBtn rest

/-- Python `name or default` for the scanned name field. -/
def pyOrDefault (name : Option String) (default : String) : String :=
  match name with
  | some v => if v = "" then default else v
  | none => default

/-- `scan_levels(tree)` over the list of TreeItem children: non level items
are skipped, items whose children read raises are skipped, items without a
numeric field are skipped. -/
def scan_levels (items : List UIItem) : List LevelRec :=
  items.filterMap (fun item =>
    if !strContains item.windowText "LevelTreeItem" then none
    else
      match item.childrenRes with
      | none => none
      | some children =>
        match scanLoop none none none children with
        | (some number, name, visBtn) =>
          some { number := number, name := pyOrDefault name ("Level " ++ number),
                 item := some item, visBtn := visBtn }
        | (none, _, _) => none)

/-! ### `_reconcile_numbers` (level_manager.py, lines 505-547) -/

/-- `name_counts` for one name: how many levels carry it. -/
def nameCount (levels : List LevelRec) (nm : String) : Nat :=
  (levels.filter (fun l => l.name == nm)).length

/-- `_unique_name_map(levels)`: name to number, names unique in `levels` only.
The dict comprehension never sees a duplicate key, so insertion order is the
level order. -/
def uniqueNameMap (levels : List LevelRec) : List (String × String) :=
  (levels.filter (fun l => nameCount levels l.name == 1)).map (fun l => (l.name, l.number))

/-- The `remap` dict construction loop over the `old_map` items, with the
Python truthiness test `if new_num and new_num != old_num`. -/
def buildRemapAux (newMap : List (String × String)) :
    List (String × String) → List (String × String) → List (String × String)
  | [], acc => acc
  | (nm, oldNum) :: rest, acc =>
    buildRemapAux newMap rest
      (match dictGet nm newMap with
       | some newNum =>
         if newNum ≠ "" && newNum ≠ oldNum then dictSet oldNum newNum acc else acc
       | none => acc)

/-- The remap computed by `_reconcile_numbers` from an old and a new scan. -/
def buildRemap (oldLevels newLevels : List LevelRec) : List (String × String) :=
  buildRemapAux (uniqueNameMap newLevels) (uniqueNameMap oldLevels) []

/-- One remap step on the hotkeys dict:
`if old_num in self.hotkeys: self.hotkeys[new_num] = self.hotkeys.pop(old_num)`. -/
def popSet (oldNum newNum : String) (hk : List (String × Hotkey)) :
    List (String × Hotkey) :=
  match dictGet oldNum hk with
  | some v => dictSet newNum v (dictRemove oldNum hk)
  | none => hk

/-- The hotkey remap loop of `_reconcile_numbers`. -/
def applyRemapHotkeys (remap : List (String × String)) (hk : List (String × Hotkey)) :
    List (String × Hotkey) :=
  match remap with
  | [] => hk
  | (a, b) :: rest => applyRemapHotkeys rest (popSet a b hk)

/-- `[remap.get(n, n) for n in members]`. -/
def applyRemapMembers (remap : List (String × String)) (members : List String) :
    List String :=
  members.map (fun n => (dictGet n remap).getD n)

/-- The group remap loop of `_reconcile_numbers`. -/
def applyRemapGroups (remap : List (String × String)) (groups : List (String × Group)) :
    List (String × Group) :=
  groups.map (fun p => (p.1, { p.2 with levels := applyRemapMembers remap p.2.levels }))

/-- `_reconcile_numbers(old_levels)` with `self.levels = newLevels`,
acting on `self.hotkeys` / `self.groups` and returning the remap count. -/
def reconcileNumbers (oldLevels newLevels : List LevelRec) (st : AppState) :
    AppState × Nat :=
  if oldLevels.isEmpty then (st, 0)
  else
    let remap := buildRemap oldLevels newLevels
    if remap.isEmpty then (st, 0)
    else ({ hotkeys := applyRemapHotkeys remap st.hotkeys,
            groups := applyRemapGroups remap st.groups }, remap.length)

/-! ### `_create_group` (level_manager.py, lines 786-826) -/

/-- `list(dict.fromkeys(nums))`: dedupe preserving first occurrences. -/
def pyDedup (seen : List String) : List String → List String
  | [] => []
  | x :: xs => if seen.contains x then pyDedup seen xs else x :: pyDedup (x :: seen) xs

/-- The generated group name: up to 3 member names joined with a separator,
plus an overflow suffix. A number with no scanned level contributes nothing. -/
def deriveGroupName (nums : List String) (levels : List LevelRec) : String :=
  let names := (nums.take 3).filterMap
    (fun num => (levels.find? (fun l => l.number == num)).map LevelRec.name)
  let base := String.intercalate " + " names
  if nums.length > 3 then base ++ " +" ++ toString (nums.length - 3) else base

/-- One pass of the membership-stealing loop of `_create_group`: the group
keeps only members outside the new selection and is dissolved (dropped)
when fewer than 2 remain. -/
def stripEntry (nums : List String) (p : String × Group) : Option (String × Group) :=
  let remaining := p.2.levels.filter (fun n => !nums.contains n)
  if remaining.length < 2 then none
  else some (p.1, { p.2 with levels := remaining })

/-- The membership-stealing loop of `_create_group` over all groups. -/
def stripMembers (nums : List String) (groups : List (String × Group)) :
    List (String × Group) :=
  groups.filterMap (stripEntry nums)

/-- `_create_group` on the already-resolved selection `nums`
(selected level numbers with group headers expanded, in order). -/
def createGroup (nums : List String) (levels : List LevelRec)
    (groups : List (String × Group)) : List (String × Group) :=
  let nums := pyDedup [] nums
  if nums.length < 2 then groups
  else
    let grpName := deriveGroupName nums levels
    dictSet grpName ⟨nums, none⟩ (stripMembers nums groups)

/-! ### `_finish_recording` (level_manager.py, lines 934-979) -/

/-- The recording target: a level number or `"grp:" ++ name`. -/
inductive RecTarget where
  | level (num : String)
  | group (name : String)
deriving DecidableEq, Repr

/-- Outcome of `_finish_recording`. -/
inductive RecOutcome where
  | conflictLevel (num : String)
  | conflictGroup (name : String)
  | assigned
deriving DecidableEq, Repr

/-- The level-hotkey conflict loop: skips the target itself when the target
is a level, and reports the first equal hotkey. -/
def findLevelConflict (target : RecTarget) (hk : Hotkey) :
    List (String × Hotkey) → Option String
  | [] => none
  | (num, ehk) :: rest =>
    if target = .level num then findLevelConflict target hk rest
    else if ehk = hk then some num
    else findLevelConflict target hk rest

/-- The group-hotkey conflict loop: skips the target itself when the target
is a group; a group without a hotkey never conflicts (`None == hk` is false). -/
def findGroupConflict (target : RecTarget) (hk : Hotkey) :
    List (String × Group) → Option String
  | [] => none
  | (name, g) :: rest =>
    if target = .group name then findGroupConflict target hk rest
    else if g.hotkey = some hk then some name
    else findGroupConflict target hk rest

/-- `self.groups[grp_name]["hotkey"] = hk` (update in place; the target
group always exists when recording was started on it). -/
def setGroupHotkey (name : String) (hk : Hotkey) (groups : List (String × Group)) :
    List (String × Group) :=
  groups.map (fun p => if p.1 = name then (p.1, { p.2 with hotkey := some hk }) else p)

/-- `_finish_recording(hk)` for a known target: reject on the first
conflicting level or group, leaving the state untouched, else assign. -/
def finishRecording (target : RecTarget) (hk : Hotkey) (st : AppState) :
    RecOutcome × AppState :=
  match findLevelConflict target hk st.hotkeys with
  | some n => (.conflictLevel n, st)
  | none =>
    match findGroupConflict target hk st.groups with
    | some gn => (.conflictGroup gn, st)
    | none =>
      match target with
      | .level t => (.assigned, { st with hotkeys := dictSet t hk st.hotkeys })
      | .group gn => (.assigned, { st with groups := setGroupHotkey gn hk st.groups })

/-- All currently assigned hotkeys: level hotkeys then group hotkeys. -/
def liveHotkeys (st : AppState) : List Hotkey :=
  st.hotkeys.map Prod.snd ++ st.groups.filterMap (fun p => p.2.hotkey)

/-! ### `_on_hotkey_press` dispatch (level_manager.py, lines 1027-1046) -/

/-- A toggle request posted to the tkinter thread. -/
inductive Dispatch where
  | group (name : String) (members : List String)
  | level (num : String)
deriving DecidableEq, Repr

/-- The group loop: first group whose set hotkey matches wins and stops
all further matching. -/
def findGroupMatch (key : PressedKey) (c a s : Bool) :
    List (String × Group) → Option Dispatch
  | [] => none
  | (name, g) :: rest =>
    if g.hotkey.isSome && hotkey_matches g.hotkey key c a s then
      some (.group name g.levels)
    else findGroupMatch key c a s rest

/-- The level loop: first level hotkey that matches wins. -/
def findLevelMatch (key : PressedKey) (c a s : Bool) :
    List (String × Hotkey) → Option Dispatch
  | [] => none
  | (num, hk) :: rest =>
    if hotkey_matches (some hk) key c a s then some (.level num)
    else findLevelMatch key c a s rest

/-- Held-modifier state of the global listener. -/
structure ModState where
  ctrl : Bool
  alt : Bool
  shift : Bool
deriving DecidableEq, Repr

/-- `_on_hotkey_press(key)`: modifier keys only update held state; any other
key is matched against groups first, then individual levels. -/
def onHotkeyPress (st : ModState) (key : PressedKey)
    (groups : List (String × Group)) (hotkeys : List (String × Hotkey)) :
    ModState × Option Dispatch :=
  if isCtrlKey key then ({ st with ctrl := true }, none)
  else if isAltKey key then ({ st with alt := true }, none)
  else if isShiftKey key then ({ st with shift := true }, none)
  else if !isModifierKey key then
    match findGroupMatch key st.ctrl st.alt st.shift groups with
    | some d => (st, some d)
    | none => (st, findLevelMatch key st.ctrl st.alt st.shift hotkeys)
  else (st, none)

/-! ### Rescan, auto-retry and health-check flows
(level_manager.py, lines 549-658 and 1056-1089)

The session state carries the cached levels plus the metadata maps.  A
rescan attempt is parameterized by the result the scanner would produce:
`none` models `scan_levels` (or the missing tree) raising, `some ls` a scan
returning `ls`.  The observable actions of each flow are recorded as an
event list in program order; the threading marshals every event back to the
single tkinter thread, so the order is the order of the `root.after` posts. -/

structure SessionSt where
  levels : List LevelRec
  hotkeys : List (String × Hotkey)
  groups : List (String × Group)
deriving DecidableEq, Repr

/-- Observable actions of the toggle/rescan flows. -/
inductive Ev where
  | evRescan
  | evNotifyStale
  | evRetryLevel (num : String)
  | evRetryGroup (nums : List String) (gname : String)
  | evToggled (num : String)
  | evToggledGroup (gname : String) (toggled total : Nat) (someStale : Bool)
  | evStatusNotFound (num : String)
  | evDetected
  | evRefreshed
deriving DecidableEq, Repr

def isRescanEv : Ev → Bool
  | .evRescan => true
  | _ => false

def isRetryEv : Ev → Bool
  | .evRetryLevel _ => true
  | .evRetryGroup _ _ => true
  | _ => false

def isStaleNotifyEv : Ev → Bool
  | .evNotifyStale => true
  | _ => false

/-- `_rescan_levels()`: fails on a raising or empty scan leaving everything
unchanged, else replaces the levels and reconciles the metadata. -/
def rescanLevels (st : SessionSt) (scanned : Option (List LevelRec)) :
    SessionSt × Bool :=
  match scanned with
  | none => (st, false)
  | some newLevels =>
    if newLevels.isEmpty then (st, false)
    else
      let (app, _) := reconcileNumbers st.levels newLevels ⟨st.hotkeys, st.groups⟩
      ({ levels := newLevels, hotkeys := app.hotkeys, groups := app.groups }, true)

/-- `_hotkey_toggle(level_number, retry=False)`. -/
def hotkeyToggleNR (st : SessionSt) (num : String) : List Ev :=
  match st.levels.find? (fun l => l.number == num) with
  | some lvl => if toggle_visibility lvl then [.evToggled num] else [.evNotifyStale]
  | none => [.evStatusNotFound num]

/-- The member loop of `_hotkey_toggle_group`: toggled count and failed flag. -/
def toggleGroupOnce (st : SessionSt) : List String → Nat × Bool
  | [] => (0, false)
  | num :: rest =>
    let (t, f) := toggleGroupOnce st rest
    match st.levels.find? (fun l => l.number == num) with
    | some lvl => if toggle_visibility lvl then (t + 1, f) else (t, true)
    | none => (t, f)

/-- `_hotkey_toggle_group(level_numbers, group_name, retry=False)`. -/
def hotkeyToggleGroupNR (st : SessionSt) (nums : List String) (gname : String) :
    List Ev :=
  let (t, f) := toggleGroupOnce st nums
  if f && t == 0 then [.evNotifyStale]
  else [.evToggledGroup gname t nums.length f]

/-- `_auto_rescan_and_retry(level_number=num)`: guarded by `_rescanning`;
one rescan, then either the stale notification or one retry with
`retry=False`. -/
def autoRescanRetryLevel (rescanning : Bool) (st : SessionSt)
    (scanned : Option (List LevelRec)) (num : String) : SessionSt × List Ev :=
  if rescanning then (st, [])
  else
    let (st1, ok) := rescanLevels st scanned
    if ok then (st1, .evRescan :: .evRetryLevel num :: hotkeyToggleNR st1 num)
    else (st1, [.evRescan, .evNotifyStale])

/-- `_auto_rescan_and_retry(group_numbers=nums, group_name=gname)`. -/
def autoRescanRetryGroup (rescanning : Bool) (st : SessionSt)
    (scanned : Option (List LevelRec)) (nums : List String) (gname : String) :
    SessionSt × List Ev :=
  if rescanning then (st, [])
  else
    let (st1, ok) := rescanLevels st scanned
    if ok then
      (st1, .evRescan :: .evRetryGroup nums gname :: hotkeyToggleGroupNR st1 nums gname)
    else (st1, [.evRescan, .evNotifyStale])

/-- `_hotkey_toggle(level_number)` with `retry=True`. -/
def hotkeyToggleFull (rescanning : Bool) (st : SessionSt)
    (scanned : Option (List LevelRec)) (num : String) : SessionSt × List Ev :=
  match st.levels.find? (fun l => l.number == num) with
  | some lvl =>
    if toggle_visibility lvl then (st, [.evToggled num])
    else autoRescanRetryLevel rescanning st scanned num
  | none => (st, [.evStatusNotFound num])

/-- `_hotkey_toggle_group(level_numbers, group_name)` with `retry=True`:
the auto rescan runs only when no member toggled and at least one failed. -/
def hotkeyToggleGroupFull (rescanning : Bool) (st : SessionSt)
    (scanned : Option (List LevelRec)) (nums : List String) (gname : String) :
    SessionSt × List Ev :=
  let (t, f) := toggleGroupOnce st nums
  if f && t == 0 then autoRescanRetryGroup rescanning st scanned nums gname
  else (st, [.evToggledGroup gname t nums.length f])

/-- The `_probe` of `_health_check` on the first cached level:
`none` when the check is skipped (no levels or no item handle). -/
def probeFresh (st : SessionSt) : Option Bool :=
  match st.levels with
  | [] => none
  | lvl :: _ =>
    match lvl.item with
    | none => none
    | some it =>
      some (match it.childrenRes with
            | none => false
            | some children =>
              children.any (fun c =>
                c.controlType == "Button" && c.automationId == "IsLevelVisibleButton"))

/-- `_health_check()` (the poll restart is implicit): when the probe finds
the cache stale it rescans, updating the UI only on success; a failed
rescan emits no notification and polling silently continues. -/
def healthCheck (rescanning : Bool) (st : SessionSt)
    (scanned : Option (List LevelRec)) : SessionSt × List Ev :=
  if rescanning then (st, [])
  else
    match probeFresh st with
    | none => (st, [])
    | some true => (st, [])
    | some false =>
      let (st1, ok) := rescanLevels st scanned
      if ok then (st1, [.evDetected, .evRefreshed]) else (st, [.evDetected])

/-! ### Derived predicates, invariants and sample data used by the theorems -/

/-- The staleness condition for a toggle: the cached item handle no longer
resolves, its children read raises, or no current live child is the
visibility toggle control. -/
def toggleControlAbsent (level : LevelRec) : Prop :=
  match level.item with
  | none => True
  | some it =>
    match it.childrenRes with
    | none => True
    | some children =>
      ∀ c ∈ children,
        ¬(c.controlType = "Button" ∧ c.automationId = "IsLevelVisibleButton")

/-- The truthy Edit values of an item, in child order. -/
def editVals (children : List UIChild) : List String :=
  children.filterMap (fun c =>
    if c.controlType == "Edit" then
      match c.value with
      | some v => if v ≠ "" then some v else none
      | none => none
    else none)

/-- The last element of a list, as the scanners see repeated assignment. -/
def lastVal : List String → Option String
  | [] => none
  | v :: rest => (lastVal rest).or (some v)

/-- No two live hotkeys (level or group) are equal. -/
def HotkeysDistinct (st : AppState) : Prop := (liveHotkeys st).Nodup

/-- The group-store invariant: each group has at least 2 members, member
lists carry no duplicates, and a level number belongs to at most one group. -/
def GroupsOK (gs : List (String × Group)) : Prop :=
  (∀ p ∈ gs, 2 ≤ p.2.levels.length ∧ p.2.levels.Nodup)
    ∧ gs.Pairwise (fun p q => ∀ n ∈ p.2.levels, n ∉ q.2.levels)

/-- All group members, across groups. -/
def allMembers (gs : List (String × Group)) : List String :=
  (gs.map (fun p => p.2.levels)).flatten

/-- The renumbering function a remap applies to a member entry. -/
def remapFn (remap : List (String × String)) (n : String) : String :=
  (dictGet n remap).getD n

/-- The remap entries in iteration order, written without the dict
accumulator: one old-number to new-number pair for every old-map entry
whose name resolves in the new map to a different, truthy number. -/
def remapEntries (newMap oldMap : List (String × String)) : List (String × String) :=
  oldMap.filterMap (fun q =>
    match dictGet q.1 newMap with
    | some nb => if nb ≠ "" && nb ≠ q.2 then some (q.2, nb) else none
    | none => none)

/-- A sample hotkey for concrete scenarios. -/
def sampleHotkeyA : Hotkey := ⟨"l", ["ctrl"]⟩

/-- A second, distinct sample hotkey. -/
def sampleHotkeyB : Hotkey := ⟨"m", ["alt"]⟩

/-- A level record carrying only its scan identity, as reconciliation
sees it. -/
def mkLevel (number name : String) : LevelRec := ⟨number, name, none, none⟩

/-- Python-dict sanity: the keys of an association list are distinct. -/
def NodupKeys {β : Type} (m : List (String × β)) : Prop := (m.map Prod.fst).Nodup

/-- The spec reading of the modifier test: the stored modifier set must
exactly equal the held set, coordinate by coordinate. -/
def modsExactlyEqual (h : Hotkey) (ctrl_held alt_held shift_held : Bool) : Bool :=
  (h.modifiers.contains "ctrl" == ctrl_held)
    && (h.modifiers.contains "alt" == alt_held)
    && (h.modifiers.contains "shift" == shift_held)

/-- The spec reading of the trigger test: named-key identity for an f-key
trigger, case-insensitive comparison for a character key, and the vk
fallback for character keys without a char reading. -/
def triggerTokenMatches (trigger : String) (key : PressedKey) : Bool :=
  if leadsWith ['f'] trigger.data && pyIsdigit ⟨trigger.data.drop 1⟩ then
    fkeyNames.contains trigger && key.namedKey = some trigger
  else
    match key.char with
    | some c => pyLower ⟨[c]⟩ == pyLower trigger
    | none =>
      match key.vk with
      | some v => if v ≠ 0 && trigger.length = 1 then v == pyOrdUpper trigger else false
      | none => false

theorem hotkey_matches_eq (h : Hotkey) (key : PressedKey) (c a s : Bool) :
    hotkey_matches (some h) key c a s
      = (modsExactlyEqual h c a s && triggerTokenMatches h.key key) := by
  simp only [hotkey_matches, modsExactlyEqual, triggerTokenMatches]
  generalize h.modifiers.contains "ctrl" = m1
  generalize h.modifiers.contains "alt" = m2
  generalize h.modifiers.contains "shift" = m3
  cases m1 <;> cases c <;> cases m2 <;> cases a <;> cases m3 <;> cases s <;> simp

/-- `check_hotkey` treats the stored modifiers as a lower bound: a match
with some held-modifier state still matches when all modifiers are held. -/
theorem checkHotkey_top (ph : ParsedHotkey) (key : PressedKey) (c a s : Bool)
    (h : checkHotkey ph key c a s = true) : checkHotkey ph key true true true = true := by
  unfold checkHotkey at h ⊢
  simp only [Bool.not_true, Bool.and_false]
  split at h
  · simp at h
  · split at h
    · simp at h
    · split at h
      · simp at h
      · simpa using h

/-- Claim C4, counterexample: the claim quantifies over every stored hotkey
and key press of the program, but `check_hotkey` in `level_toggle.py`
matches the parsed hotkey requiring only ctrl when both ctrl and shift are
held, so the modifier comparison is not exact equality there. -/
theorem C4_counterexample :
    parseHotkey "ctrl+i" = ⟨true, false, false, some "i", none⟩
      ∧ checkHotkey (parseHotkey "ctrl+i") ⟨none, some 'i', some 73⟩ true false true
          = true := by
  constructor
  · rfl
  · rfl

/-- Claim C4, amended: in `level_manager.py`, `hotkey_matches` holds
exactly when the stored modifier set equals the held modifier set
coordinatewise and the trigger token matches (named-key identity for f-key
triggers, case-insensitive for character keys); in particular a hotkey
requiring only ctrl does not match when ctrl and shift are both held.  In
`level_toggle.py`, `check_hotkey` instead treats the stored modifiers as a
lower bound: extra held modifiers never break a match. -/
theorem C4_hotkey_match_exactness :
    (∀ (h : Hotkey) (key : PressedKey) (c a s : Bool),
      hotkey_matches (some h) key c a s
        = (modsExactlyEqual h c a s && triggerTokenMatches h.key key))
    ∧ hotkey_matches (some ⟨"a", ["ctrl"]⟩) ⟨none, some 'a', some 65⟩ true false true
        = false
    ∧ (∀ (ph : ParsedHotkey) (key : PressedKey) (c a s : Bool),
        checkHotkey ph key c a s = true → checkHotkey ph key true true true = true) := by
  refine ⟨hotkey_matches_eq, by rfl, ?_⟩
  intro ph key c a s h
  exact checkHotkey_top ph key c a s h

/-- Witness for C4: the characterization applied at a concrete hotkey and
key press, and the subset behavior of the level_toggle matcher at a
concrete parsed combo. -/
theorem C4_hotkey_match_exactness_witness :
    hotkey_matches (some ⟨"a", ["ctrl"]⟩) ⟨none, some 'A', some 65⟩ true false false
      = (modsExactlyEqual ⟨"a", ["ctrl"]⟩ true false false
          && triggerTokenMatches "a" ⟨none, some 'A', some 65⟩)
    ∧ checkHotkey (parseHotkey "ctrl+i") ⟨none, some 'i', some 73⟩ true true true
        = true := by
  constructor
  · exact C4_hotkey_match_exactness.1 ⟨"a", ["ctrl"]⟩ ⟨none, some 'A', some 65⟩
      true false false
  · exact C4_hotkey_match_exactness.2.2 (parseHotkey "ctrl+i")
      ⟨none, some 'i', some 73⟩ true false true (by rfl)

/-! ### Claim C6: stale toggle reports failure -/

/-- Claim C6, counterexample: `toggle_level_visibility` in
`level_toggle.py`, called on an item whose live children hold no visibility
button (here a single Edit child), raises a RuntimeError to its caller
instead of returning failure. -/
theorem C6_counterexample :
    toggle_level_visibility ⟨"LevelTreeItem 1", some [⟨"Edit", "", some "10", true⟩]⟩
      = .raised "IsLevelVisibleButton not found" := by
  rfl

/-- Claim C6, amended: `toggle_visibility` in `level_manager.py` returns
failure (`false`) and never raises whenever the cached item does not
resolve or no live child is the visibility toggle control; the
`toggle_level_visibility` variant in `level_toggle.py` instead raises a
RuntimeError to its caller in the same situations (which that caller
catches to drive its reconnect path). -/
theorem C6_stale_toggle_reports_failure :
    (∀ level : LevelRec, toggleControlAbsent level → toggle_visibility level = false)
    ∧ (∀ (it : UIItem) (children : List UIChild), it.childrenRes = some children →
        (∀ c ∈ children, ¬(c.automationId = "IsLevelVisibleButton" ∧ c.invokeOk = true)) →
        toggle_level_visibility it = .raised "IsLevelVisibleButton not found")
    ∧ (∀ it : UIItem, it.childrenRes = none →
        toggle_level_visibility it = .raised "item.children() raised") := by
  refine ⟨?_, ?_, ?_⟩
  · intro level habs
    obtain ⟨num, nm, item, vb⟩ := level
    cases item with
    | none => rfl
    | some it =>
      obtain ⟨wt, chr⟩ := it
      cases chr with
      | none => rfl
      | some children =>
        simp only [toggleControlAbsent] at habs
        simp only [toggle_visibility]
        rw [List.any_eq_false]
        intro c hc
        have hnot := habs c hc
        simp only [isWorkingVisButton, Bool.and_eq_true, beq_iff_eq, not_and]
        intro h1 h2
        exact absurd ⟨h1.1, h1.2⟩ hnot
  · intro it children hch habs
    obtain ⟨wt, chr⟩ := it
    simp only at hch
    subst hch
    simp only [toggle_level_visibility]
    have hfalse :
        children.any (fun c => c.automationId == "IsLevelVisibleButton" && c.invokeOk)
          = false := by
      rw [List.any_eq_false]
      intro c hc
      simp only [Bool.and_eq_true, beq_iff_eq, not_and]
      intro h1 h2
      exact habs c hc ⟨h1, h2⟩
    rw [hfalse]
    rfl
  · intro it hch
    obtain ⟨wt, chr⟩ := it
    simp only at hch
    subst hch
    rfl

/-- Witness for C6 at a concrete stale level and item. -/
theorem C6_stale_toggle_reports_failure_witness :
    toggle_visibility ⟨"10", "Body", some ⟨"LevelTreeItem 1",
        some [⟨"Edit", "", some "10", true⟩]⟩, none⟩ = false
    ∧ toggle_level_visibility ⟨"LevelTreeItem 1", none⟩
        = .raised "item.children() raised" := by
  constructor
  · exact C6_stale_toggle_reports_failure.1
      ⟨"10", "Body", some ⟨"LevelTreeItem 1", some [⟨"Edit", "", some "10", true⟩]⟩, none⟩
      (by intro c hc; fin_cases hc; simp)
  · exact C6_stale_toggle_reports_failure.2.2 ⟨"LevelTreeItem 1", none⟩ rfl

/-! ### Claim C10: scanned number and synthesized name -/

theorem lastVal_append_singleton (vs : List String) (v : String) :
    lastVal (vs ++ [v]) = some v := by
  induction vs with
  | nil => rfl
  | cons a rest ih => simp [lastVal, ih]

theorem scanLoop_fst (children : List UIChild) :
    ∀ (number name : Option String) (vb : Option UIChild),
      (scanLoop number name vb children).1
        = number.or ((editVals children).find? pyIsdigit) := by
  induction children with
  | nil => intro number name vb; cases number <;> rfl
  | cons c rest ih =>
    intro number name vb
    simp only [scanLoop, editVals, List.filterMap_cons]
    by_cases hEdit : (c.controlType == "Edit") = true
    · simp only [hEdit, if_true]
      cases hv : c.value with
      | none => simpa [editVals] using ih number name vb
      | some v =>
        by_cases hne : v = ""
        · subst hne
          simpa [editVals] using ih number name vb
        · simp only [hne, ite_true, if_true, ne_eq, not_false_eq_true]
          by_cases hd : pyIsdigit v = true
          · cases number with
            | none =>
              simp only [hd, Option.isNone_none, Bool.and_true, if_true, Option.none_or]
              rw [ih (some v) name vb]
              simp [editVals, List.find?, hd]
            | some k =>
              simp only [hd, Option.isNone_some, Bool.and_false, Bool.false_eq_true,
                if_false, Bool.not_true]
              rw [ih (some k) name vb]
              simp [editVals, List.find?, hd]
          · simp only [Bool.eq_false_iff.mpr hd, Bool.false_and, Bool.false_eq_true,
              if_false, Bool.not_false, if_true]
            rw [ih number (some v) vb]
            simp [editVals, List.find?, Bool.eq_false_iff.mpr hd]
    · simp only [Bool.eq_false_iff.mpr hEdit, Bool.false_eq_true, if_false]
      by_cases hBtn : (c.controlType == "Button" && c.automationId == "IsLevelVisibleButton") = true
      · simp only [hBtn, if_true]
        simpa [editVals, Bool.eq_false_iff.mpr hEdit] using ih number name (some c)
      · simp only [Bool.eq_false_iff.mpr hBtn, Bool.false_eq_true, if_false]
        simpa [editVals, Bool.eq_false_iff.mpr hEdit] using ih number name vb

theorem scanLoop_name (children : List UIChild) :
    ∀ (number name : Option String) (vb : Option UIChild),
      (scanLoop number name vb children).2.1
        = (lastVal ((editVals children).filter (fun v => !pyIsdigit v))).or name := by
  induction children with
  | nil => intro number name vb; cases name <;> rfl
  | cons c rest ih =>
    intro number name vb
    simp only [scanLoop, editVals, List.filterMap_cons]
    by_cases hEdit : (c.controlType == "Edit") = true
    · simp only [hEdit, if_true]
      cases hv : c.value with
      | none => simpa [editVals] using ih number name vb
      | some v =>
        by_cases hne : v = ""
        · subst hne
          simpa [editVals] using ih number name vb
        · simp only [hne, ite_true, if_true, ne_eq, not_false_eq_true]
          by_cases hd : pyIsdigit v = true
          · cases number with
            | none =>
              simp only [hd, Option.isNone_none, Bool.and_true, if_true]
              rw [ih (some v) name vb]
              simp [editVals, hd]
            | some k =>
              simp only [hd, Option.isNone_some, Bool.and_false, Bool.false_eq_true,
                if_false, Bool.not_true]
              rw [ih (some k) name vb]
              simp [editVals, hd]
          · simp only [Bool.eq_false_iff.mpr hd, Bool.false_and, Bool.false_eq_true,
              if_false, Bool.not_false, if_true]
            rw [ih number (some v) vb]
            simp only [editVals, List.filter_cons, Bool.eq_false_iff.mpr hd,
              Bool.not_false, if_true, lastVal]
            cases hl : lastVal (((rest.filterMap fun c =>
                if (c.controlType == "Edit") = true then
                  match c.value with
                  | some v => if v ≠ "" then some v else none
                  | none => none
                else none).filter (fun v => !pyIsdigit v))) with
            | none => rfl
            | some w => rfl
    · simp only [Bool.eq_false_iff.mpr hEdit, Bool.false_eq_true, if_false]
      by_cases hBtn : (c.controlType == "Button" && c.automationId == "IsLevelVisibleButton") = true
      · simp only [hBtn, if_true]
        simpa [editVals, Bool.eq_false_iff.mpr hEdit] using ih number name (some c)
      · simp only [Bool.eq_false_iff.mpr hBtn, Bool.false_eq_true, if_false]
        simpa [editVals, Bool.eq_false_iff.mpr hEdit] using ih number name vb

theorem editVals_ne_empty (children : List UIChild) (v : String)
    (hv : v ∈ editVals children) : v ≠ "" := by
  simp only [editVals, List.mem_filterMap] at hv
  obtain ⟨c, _, hc⟩ := hv
  by_cases hEdit : (c.controlType == "Edit") = true
  · simp only [hEdit, if_true] at hc
    cases hval : c.value with
    | none => rw [hval] at hc; exact absurd hc (by simp)
    | some w =>
      rw [hval] at hc
      by_cases hne : w = ""
      · subst hne; simp at hc
      · simp only [hne, ne_eq, not_false_eq_true, ite_true, if_true,
          Option.some.injEq] at hc
        subst hc; exact hne
  · rw [Bool.eq_false_iff.mpr hEdit] at hc
    exact absurd hc (by simp)

/-- Claim C10: an item whose text marks it as a level item and whose truthy
Edit values contain an all-digit field is recorded with that first digit
field as its number; with no non-numeric text field present the name is
synthesized as the string Level followed by the number, and with several
non-numeric fields the last one encountered becomes the name. -/
theorem C10_scan_number_and_name :
    ∀ (wt : String) (children : List UIChild) (n : String),
      strContains wt "LevelTreeItem" = true →
      (editVals children).find? pyIsdigit = some n →
      (((editVals children).filter (fun v => !pyIsdigit v) = [] →
         ∃ rec, scan_levels [⟨wt, some children⟩] = [rec]
           ∧ rec.number = n ∧ rec.name = "Level " ++ n)
       ∧ (∀ (vs : List String) (v : String),
            (editVals children).filter (fun v => !pyIsdigit v) = vs ++ [v] →
            ∃ rec, scan_levels [⟨wt, some children⟩] = [rec]
              ∧ rec.number = n ∧ rec.name = v)) := by
  intro wt children n hwt hfind
  rcases hres : scanLoop none none none children with ⟨rnum, rname, rvb⟩
  have h1 : rnum = some n := by
    have h := scanLoop_fst children none none none
    rw [hres] at h
    simpa [hfind] using h
  have h2 : rname = lastVal ((editVals children).filter (fun v => !pyIsdigit v)) := by
    have h := scanLoop_name children none none none
    rw [hres] at h
    simpa using h
  have hscan : scan_levels [⟨wt, some children⟩]
      = [⟨n, pyOrDefault rname ("Level " ++ n), some ⟨wt, some children⟩, rvb⟩] := by
    simp only [scan_levels, List.filterMap_cons, List.filterMap_nil, hwt,
      Bool.not_true, Bool.false_eq_true, if_false, hres, h1]
  constructor
  · intro hempty
    refine ⟨_, hscan, rfl, ?_⟩
    rw [h2, hempty]
    rfl
  · intro vs v hlast
    refine ⟨_, hscan, rfl, ?_⟩
    rw [h2, hlast, lastVal_append_singleton]
    have hv : v ≠ "" := by
      apply editVals_ne_empty children
      have : v ∈ (editVals children).filter (fun v => !pyIsdigit v) := by
        rw [hlast]; simp
      exact (List.mem_filter.mp this).1
    simp [pyOrDefault, hv]

/-- Witness for C10 at a concrete item with a digit field and no name
field, and another with two name fields. -/
theorem C10_scan_number_and_name_witness :
    (∃ rec, scan_levels [⟨"LevelTreeItem 3",
        some [⟨"Edit", "", some "12", true⟩]⟩] = [rec]
      ∧ rec.number = "12" ∧ rec.name = "Level 12")
    ∧ (∃ rec, scan_levels [⟨"LevelTreeItem 3",
        some [⟨"Edit", "", some "12", true⟩, ⟨"Edit", "", some "Top", true⟩,
              ⟨"Edit", "", some "Side", true⟩]⟩] = [rec]
      ∧ rec.number = "12" ∧ rec.name = "Side") := by
  constructor
  · exact (C10_scan_number_and_name "LevelTreeItem 3"
      [⟨"Edit", "", some "12", true⟩] "12" (by decide) (by decide)).1 (by decide)
  · exact (C10_scan_number_and_name "LevelTreeItem 3"
      [⟨"Edit", "", some "12", true⟩, ⟨"Edit", "", some "Top", true⟩,
       ⟨"Edit", "", some "Side", true⟩] "12" (by decide) (by decide)).2
      ["Top"] "Side" (by decide)

/-! ### Claim C8: group-first, first-match dispatch -/

theorem findGroupMatch_eq_find (key : PressedKey) (c a s : Bool)
    (groups : List (String × Group)) :
    findGroupMatch key c a s groups
      = (groups.find? (fun p => p.2.hotkey.isSome && hotkey_matches p.2.hotkey key c a s)).map
          (fun p => Dispatch.group p.1 p.2.levels) := by
  induction groups with
  | nil => rfl
  | cons p rest ih =>
    obtain ⟨name, g⟩ := p
    simp only [findGroupMatch, List.find?]
    by_cases h : (g.hotkey.isSome && hotkey_matches g.hotkey key c a s) = true
    · simp [h]
    · simp [Bool.eq_false_iff.mpr h, ih]

theorem findLevelMatch_eq_find (key : PressedKey) (c a s : Bool)
    (hotkeys : List (String × Hotkey)) :
    findLevelMatch key c a s hotkeys
      = (hotkeys.find? (fun p => hotkey_matches (some p.2) key c a s)).map
          (fun p => Dispatch.level p.1) := by
  induction hotkeys with
  | nil => rfl
  | cons p rest ih =>
    obtain ⟨num, hk⟩ := p
    simp only [findLevelMatch, List.find?]
    by_cases h : hotkey_matches (some hk) key c a s = true
    · simp [h]
    · simp [Bool.eq_false_iff.mpr h, ih]

/-- Claim C8: on a non-modifier key press the groups are tested first in
order and the first group whose set hotkey matches is dispatched as a
group-toggle of its members with no further matching; only when no group
matches are the individual level hotkeys tested in order, the first match
dispatching a single-level toggle. -/
theorem C8_dispatch_group_first (st : ModState) (key : PressedKey)
    (groups : List (String × Group)) (hotkeys : List (String × Hotkey))
    (hmod : isModifierKey key = false) :
    (onHotkeyPress st key groups hotkeys).1 = st
    ∧ (onHotkeyPress st key groups hotkeys).2
        = (match groups.find?
              (fun p => p.2.hotkey.isSome && hotkey_matches p.2.hotkey key st.ctrl st.alt st.shift) with
           | some p => some (.group p.1 p.2.levels)
           | none =>
             (hotkeys.find? (fun p => hotkey_matches (some p.2) key st.ctrl st.alt st.shift)).map
               (fun p => Dispatch.level p.1))
    ∧ (∀ p, groups.find?
          (fun p => p.2.hotkey.isSome && hotkey_matches p.2.hotkey key st.ctrl st.alt st.shift)
            = some p →
        (onHotkeyPress st key groups hotkeys).2 = some (.group p.1 p.2.levels)) := by
  have hc : isCtrlKey key = false := by
    simp only [isModifierKey, Bool.or_eq_false_iff] at hmod
    exact hmod.1.1
  have ha : isAltKey key = false := by
    simp only [isModifierKey, Bool.or_eq_false_iff] at hmod
    exact hmod.1.2
  have hs : isShiftKey key = false := by
    simp only [isModifierKey, Bool.or_eq_false_iff] at hmod
    exact hmod.2
  have hbody : onHotkeyPress st key groups hotkeys
      = (st, match findGroupMatch key st.ctrl st.alt st.shift groups with
             | some d => some d
             | none => findLevelMatch key st.ctrl st.alt st.shift hotkeys) := by
    simp only [onHotkeyPress, hc, ha, hs, hmod, Bool.false_eq_true, if_false,
      Bool.not_false, if_true]
    cases hfind : findGroupMatch key st.ctrl st.alt st.shift groups <;> rfl
  refine ⟨by rw [hbody], ?_, ?_⟩
  · rw [hbody]
    simp only [findGroupMatch_eq_find, findLevelMatch_eq_find]
    cases hfind : groups.find?
        (fun p => p.2.hotkey.isSome && hotkey_matches p.2.hotkey key st.ctrl st.alt st.shift) with
    | none => simp
    | some p => simp
  · intro p hfind
    rw [hbody]
    simp only [findGroupMatch_eq_find, hfind, Option.map_some]
    rfl

/-- Witness for C8: with ctrl held and the trigger key l pressed, a group
hotkey ctrl+l beats a level carrying the same hotkey, and with no matching
group the level fires. -/
theorem C8_dispatch_group_first_witness :
    (onHotkeyPress ⟨true, false, false⟩ ⟨none, some 'l', some 76⟩
        [("G", ⟨["1", "2"], some sampleHotkeyA⟩)] [("9", sampleHotkeyA)]).2
      = some (.group "G" ["1", "2"])
    ∧ (onHotkeyPress ⟨true, false, false⟩ ⟨none, some 'l', some 76⟩
        [("G", ⟨["1", "2"], some sampleHotkeyB⟩)] [("9", sampleHotkeyA)]).2
      = some (.level "9") := by
  constructor
  · exact (C8_dispatch_group_first ⟨true, false, false⟩ ⟨none, some 'l', some 76⟩
      [("G", ⟨["1", "2"], some sampleHotkeyA⟩)] [("9", sampleHotkeyA)] (by decide)).2.2
      ("G", ⟨["1", "2"], some sampleHotkeyA⟩) (by decide)
  · rw [(C8_dispatch_group_first ⟨true, false, false⟩ ⟨none, some 'l', some 76⟩
      [("G", ⟨["1", "2"], some sampleHotkeyB⟩)] [("9", sampleHotkeyA)] (by decide)).2.1]
    decide

/-! ### Claim C7: one rescan, one retry, then a persistent notification -/

theorem hotkeyToggleNR_counts (st : SessionSt) (num : String) :
    (hotkeyToggleNR st num).countP isRescanEv = 0
    ∧ (hotkeyToggleNR st num).countP isRetryEv = 0
    ∧ (hotkeyToggleNR st num).countP isStaleNotifyEv ≤ 1 := by
  unfold hotkeyToggleNR
  cases hfind : st.levels.find? (fun l => l.number == num) with
  | none => refine ⟨rfl, rfl, ?_⟩; simp [List.countP_cons, isStaleNotifyEv]
  | some lvl =>
    by_cases ht : toggle_visibility lvl = true
    · simp only [ht, if_true]
      refine ⟨rfl, rfl, ?_⟩
      simp [List.countP_cons, isStaleNotifyEv]
    · simp only [Bool.eq_false_iff.mpr ht, Bool.false_eq_true, if_false]
      refine ⟨rfl, rfl, ?_⟩
      simp [List.countP_cons, isStaleNotifyEv]

theorem hotkeyToggleNR_stale (st : SessionSt) (num : String) (lvl : LevelRec)
    (hfound : st.levels.find? (fun l => l.number == num) = some lvl)
    (hfail : toggle_visibility lvl = false) :
    hotkeyToggleNR st num = [.evNotifyStale] := by
  unfold hotkeyToggleNR
  rw [hfound]
  simp [hfail]

theorem hotkeyToggleGroupNR_counts (st : SessionSt) (nums : List String)
    (gname : String) :
    (hotkeyToggleGroupNR st nums gname).countP isRescanEv = 0
    ∧ (hotkeyToggleGroupNR st nums gname).countP isRetryEv = 0
    ∧ (hotkeyToggleGroupNR st nums gname).countP isStaleNotifyEv ≤ 1 := by
  unfold hotkeyToggleGroupNR
  rcases htg : toggleGroupOnce st nums with ⟨t, f⟩
  by_cases h : (f && t == 0) = true
  · simp only [h, if_true]
    refine ⟨rfl, rfl, ?_⟩
    simp [List.countP_cons, isStaleNotifyEv]
  · simp only [Bool.eq_false_iff.mpr h, Bool.false_eq_true, if_false]
    refine ⟨rfl, rfl, ?_⟩
    simp [List.countP_cons, isStaleNotifyEv]

/-- Claim C7: a failed hotkey toggle (single level, or a group where no
member toggled and some failed) triggers exactly one rescan; when the
rescan succeeds exactly one retry of the original request is dispatched,
and the retry itself can trigger no further rescans or retries; when the
rescan fails, or the retried toggle fails again, a single persistent stale
notification is surfaced; and while a rescan is already in flight the
flow does nothing at all. -/
theorem C7_retry_policy :
    (∀ (st : SessionSt) (scanned : Option (List LevelRec)) (num : String) (lvl : LevelRec),
      st.levels.find? (fun l => l.number == num) = some lvl →
      toggle_visibility lvl = false →
      ((hotkeyToggleFull false st scanned num).2
          = .evRescan ::
            (if (rescanLevels st scanned).2
             then .evRetryLevel num :: hotkeyToggleNR (rescanLevels st scanned).1 num
             else [.evNotifyStale])
        ∧ (hotkeyToggleFull false st scanned num).2.countP isRescanEv = 1
        ∧ (hotkeyToggleFull false st scanned num).2.countP isRetryEv
            = (if (rescanLevels st scanned).2 then 1 else 0)
        ∧ (hotkeyToggleFull false st scanned num).2.countP isStaleNotifyEv ≤ 1
        ∧ hotkeyToggleFull true st scanned num = (st, [])))
    ∧ (∀ (st : SessionSt) (num : String) (lvl : LevelRec),
        st.levels.find? (fun l => l.number == num) = some lvl →
        toggle_visibility lvl = false →
        hotkeyToggleNR st num = [.evNotifyStale])
    ∧ (∀ (st : SessionSt) (scanned : Option (List LevelRec)) (nums : List String)
          (gname : String),
        toggleGroupOnce st nums = (0, true) →
        ((hotkeyToggleGroupFull false st scanned nums gname).2
            = .evRescan ::
              (if (rescanLevels st scanned).2
               then .evRetryGroup nums gname ::
                 hotkeyToggleGroupNR (rescanLevels st scanned).1 nums gname
               else [.evNotifyStale])
          ∧ (hotkeyToggleGroupFull false st scanned nums gname).2.countP isRescanEv = 1
          ∧ (hotkeyToggleGroupFull false st scanned nums gname).2.countP isRetryEv
              = (if (rescanLevels st scanned).2 then 1 else 0)
          ∧ hotkeyToggleGroupFull true st scanned nums gname = (st, []))) := by
  refine ⟨?_, hotkeyToggleNR_stale, ?_⟩
  · intro st scanned num lvl hfound hfail
    have hfull : hotkeyToggleFull false st scanned num
        = autoRescanRetryLevel false st scanned num := by
      simp only [hotkeyToggleFull, hfound, hfail, Bool.false_eq_true, if_false]
    have hguard : hotkeyToggleFull true st scanned num = (st, []) := by
      simp only [hotkeyToggleFull, hfound, hfail, Bool.false_eq_true, if_false,
        autoRescanRetryLevel, if_true]
    rcases hsc : rescanLevels st scanned with ⟨st1, ok⟩
    have hauto : autoRescanRetryLevel false st scanned num
        = (if ok then (st1, .evRescan :: .evRetryLevel num :: hotkeyToggleNR st1 num)
           else (st1, [.evRescan, .evNotifyStale])) := by
      simp only [autoRescanRetryLevel, Bool.false_eq_true, if_false, hsc]
    rw [hfull, hauto]
    cases ok with
    | true =>
      obtain ⟨h1, h2, h3⟩ := hotkeyToggleNR_counts st1 num
      refine ⟨by simp, ?_, ?_, ?_, hguard⟩
      · simp [List.countP_cons, isRescanEv, h1]
      · simp [List.countP_cons, isRetryEv, isRescanEv, h2]
      · simp only [if_true, List.countP_cons, isStaleNotifyEv]
        simpa using h3
    | false =>
      refine ⟨by simp, ?_, ?_, ?_, hguard⟩
      · simp [List.countP_cons, isRescanEv]
      · simp [List.countP_cons, isRetryEv]
      · simp [List.countP_cons, isStaleNotifyEv]
  · intro st scanned nums gname hall
    have hfull : hotkeyToggleGroupFull false st scanned nums gname
        = autoRescanRetryGroup false st scanned nums gname := by
      simp only [hotkeyToggleGroupFull, hall]
      rfl
    have hguard : hotkeyToggleGroupFull true st scanned nums gname = (st, []) := by
      simp only [hotkeyToggleGroupFull, hall, autoRescanRetryGroup, if_true]
      rfl
    rcases hsc : rescanLevels st scanned with ⟨st1, ok⟩
    have hauto : autoRescanRetryGroup false st scanned nums gname
        = (if ok then
            (st1, .evRescan :: .evRetryGroup nums gname :: hotkeyToggleGroupNR st1 nums gname)
           else (st1, [.evRescan, .evNotifyStale])) := by
      simp only [autoRescanRetryGroup, Bool.false_eq_true, if_false, hsc]
    rw [hfull, hauto]
    cases ok with
    | true =>
      obtain ⟨h1, h2, _⟩ := hotkeyToggleGroupNR_counts st1 nums gname
      refine ⟨by simp, ?_, ?_, hguard⟩
      · simp [List.countP_cons, isRescanEv, h1]
      · simp [List.countP_cons, isRetryEv, isRescanEv, h2]
    | false =>
      refine ⟨by simp, ?_, ?_, hguard⟩
      · simp [List.countP_cons, isRescanEv]
      · simp [List.countP_cons, isRetryEv]

/-- Witness for C7 at a concrete stale session: one rescan, one retry
against the rescanned levels (which fails again), one stale notification. -/
theorem C7_retry_policy_witness :
    (hotkeyToggleFull false
        ⟨[⟨"1", "Body", some ⟨"LevelTreeItem", some []⟩, none⟩], [], []⟩
        (some [mkLevel "1" "Body"]) "1").2
      = [.evRescan, .evRetryLevel "1", .evNotifyStale]
    ∧ hotkeyToggleFull true
        ⟨[⟨"1", "Body", some ⟨"LevelTreeItem", some []⟩, none⟩], [], []⟩
        (some [mkLevel "1" "Body"]) "1"
      = (⟨[⟨"1", "Body", some ⟨"LevelTreeItem", some []⟩, none⟩], [], []⟩, []) := by
  have h := (C7_retry_policy.1
    ⟨[⟨"1", "Body", some ⟨"LevelTreeItem", some []⟩, none⟩], [], []⟩
    (some [mkLevel "1" "Body"]) "1"
    ⟨"1", "Body", some ⟨"LevelTreeItem", some []⟩, none⟩ (by decide) (by decide))
  refine ⟨?_, h.2.2.2.2⟩
  rw [h.1]
  decide

/-! ### Claim C9: recovery from Stale and the empty-rescan notification -/

theorem rescanLevels_nonempty (st : SessionSt) (newLevels : List LevelRec)
    (hne : newLevels ≠ []) :
    (rescanLevels st (some newLevels)).1.levels = newLevels
    ∧ (rescanLevels st (some newLevels)).2 = true := by
  have hempty : newLevels.isEmpty = false := by
    cases newLevels with
    | nil => exact absurd rfl hne
    | cons a rest => rfl
  rcases hrec : reconcileNumbers st.levels newLevels ⟨st.hotkeys, st.groups⟩ with ⟨app, cnt⟩
  constructor <;> simp [rescanLevels, hempty, hrec]

/-- Claim C9, counterexample: in the state whose first cached item has
lost its visibility button (the Stale state), a health-check rescan that
returns zero items surfaces no stale notification at all, it silently
keeps polling, although the claim requires a visible notification on
every rescan path including the proactive health check. -/
theorem C9_counterexample :
    probeFresh ⟨[⟨"1", "Body", some ⟨"LevelTreeItem", some []⟩, none⟩], [], []⟩
        = some false
    ∧ healthCheck false ⟨[⟨"1", "Body", some ⟨"LevelTreeItem", some []⟩, none⟩], [], []⟩
        (some [])
      = (⟨[⟨"1", "Body", some ⟨"LevelTreeItem", some []⟩, none⟩], [], []⟩, [.evDetected])
    ∧ (healthCheck false ⟨[⟨"1", "Body", some ⟨"LevelTreeItem", some []⟩, none⟩], [], []⟩
        (some [])).2.countP isStaleNotifyEv = 0 := by
  refine ⟨rfl, rfl, rfl⟩

/-- Claim C9, amended: a rescan producing a non-empty level list installs
the new levels (returning the session to Connected) on both the
auto-rescan-and-retry path and the proactive health-check path; a rescan
producing zero items surfaces the persistent stale notification on the
auto-rescan-and-retry path, but on the health-check path it surfaces no
notification and the poll silently continues. -/
theorem C9_stale_recovery :
    (∀ (st : SessionSt) (num : String) (newLevels : List LevelRec),
      newLevels ≠ [] →
      ((autoRescanRetryLevel false st (some newLevels) num).1.levels = newLevels
        ∧ (autoRescanRetryLevel false st (some newLevels) num).2.countP isRescanEv = 1))
    ∧ (∀ (st : SessionSt) (num : String),
        (autoRescanRetryLevel false st (some []) num).2 = [.evRescan, .evNotifyStale]
          ∧ (autoRescanRetryLevel false st (some []) num).1 = st)
    ∧ (∀ (st : SessionSt) (newLevels : List LevelRec),
        probeFresh st = some false → newLevels ≠ [] →
        ((healthCheck false st (some newLevels)).1.levels = newLevels
          ∧ (healthCheck false st (some newLevels)).2 = [.evDetected, .evRefreshed]))
    ∧ (∀ (st : SessionSt),
        probeFresh st = some false →
        healthCheck false st (some []) = (st, [.evDetected])) := by
  refine ⟨?_, ?_, ?_, ?_⟩
  · intro st num newLevels hne
    obtain ⟨hl, hok⟩ := rescanLevels_nonempty st newLevels hne
    rcases hsc : rescanLevels st (some newLevels) with ⟨st1, ok⟩
    rw [hsc] at hl hok
    simp only at hl hok
    subst hok
    have hev : autoRescanRetryLevel false st (some newLevels) num
        = (st1, .evRescan :: .evRetryLevel num :: hotkeyToggleNR st1 num) := by
      simp [autoRescanRetryLevel, hsc]
    rw [hev]
    obtain ⟨h1, _, _⟩ := hotkeyToggleNR_counts st1 num
    exact ⟨hl, by simp [List.countP_cons, isRescanEv, h1]⟩
  · intro st num
    constructor <;> rfl
  · intro st newLevels hprobe hne
    obtain ⟨hl, hok⟩ := rescanLevels_nonempty st newLevels hne
    rcases hsc : rescanLevels st (some newLevels) with ⟨st1, ok⟩
    rw [hsc] at hl hok
    simp only at hl hok
    subst hok
    have hev : healthCheck false st (some newLevels) = (st1, [.evDetected, .evRefreshed]) := by
      simp [healthCheck, hprobe, hsc]
    rw [hev]
    exact ⟨hl, rfl⟩
  · intro st hprobe
    simp [healthCheck, hprobe, rescanLevels]

/-- Witness for C9 at concrete states: a stale session recovers through a
non-empty rescan on both paths, and the empty-rescan branches behave as
amended. -/
theorem C9_stale_recovery_witness :
    ((autoRescanRetryLevel false
        ⟨[⟨"1", "Body", some ⟨"LevelTreeItem", some []⟩, none⟩], [], []⟩
        (some [mkLevel "1" "Body"]) "1").1.levels = [mkLevel "1" "Body"]
      ∧ (healthCheck false
          ⟨[⟨"1", "Body", some ⟨"LevelTreeItem", some []⟩, none⟩], [], []⟩
          (some [mkLevel "1" "Body"])).2 = [.evDetected, .evRefreshed]
      ∧ healthCheck false
          ⟨[⟨"1", "Body", some ⟨"LevelTreeItem", some []⟩, none⟩], [], []⟩ (some [])
        = (⟨[⟨"1", "Body", some ⟨"LevelTreeItem", some []⟩, none⟩], [], []⟩,
           [.evDetected])) := by
  refine ⟨?_, ?_, ?_⟩
  · exact (C9_stale_recovery.1
      ⟨[⟨"1", "Body", some ⟨"LevelTreeItem", some []⟩, none⟩], [], []⟩ "1"
      [mkLevel "1" "Body"] (by decide)).1
  · exact (C9_stale_recovery.2.2.1
      ⟨[⟨"1", "Body", some ⟨"LevelTreeItem", some []⟩, none⟩], [], []⟩
      [mkLevel "1" "Body"] (by decide) (by decide)).2
  · exact C9_stale_recovery.2.2.2
      ⟨[⟨"1", "Body", some ⟨"LevelTreeItem", some []⟩, none⟩], [], []⟩ (by decide)

/-! ### Association-list dictionary lemmas -/

theorem dictGet_mem {β : Type} {k : String} {v : β} :
    ∀ {m : List (String × β)}, dictGet k m = some v → (k, v) ∈ m := by
  intro m
  induction m with
  | nil => intro h; simp [dictGet] at h
  | cons p rest ih =>
    intro h
    rw [dictGet] at h
    by_cases hk : p.1 = k
    · rw [if_pos hk] at h
      injection h with h
      have hp : (k, v) = p := by
        obtain ⟨p1, p2⟩ := p
        simp only at hk h
        rw [hk, h]
      exact List.mem_cons.mpr (Or.inl hp)
    · rw [if_neg hk] at h
      exact List.mem_cons_of_mem _ (ih h)

theorem dictGet_eq_none_iff {β : Type} (k : String) (m : List (String × β)) :
    dictGet k m = none ↔ ∀ p ∈ m, p.1 ≠ k := by
  induction m with
  | nil => simp [dictGet]
  | cons p rest ih =>
    rw [dictGet]
    by_cases hk : p.1 = k
    · simp [hk]
    · simp [hk, ih]

theorem dictGet_of_mem_unique {β : Type} {k : String} {v : β} {m : List (String × β)}
    (hmem : (k, v) ∈ m) (huniq : ∀ w, (k, w) ∈ m → w = v) :
    dictGet k m = some v := by
  induction m with
  | nil => simp at hmem
  | cons p rest ih =>
    rw [dictGet]
    by_cases hk : p.1 = k
    · rw [if_pos hk]
      have hv : p.2 = v := by
        apply huniq
        have hp : (k, p.2) = p := by
          obtain ⟨p1, p2⟩ := p
          simp only at hk ⊢
          rw [hk]
        exact List.mem_cons.mpr (Or.inl hp)
      rw [hv]
    · rw [if_neg hk]
      apply ih
      · rcases List.mem_cons.mp hmem with h | h
        · exact absurd (by rw [← h]) hk
        · exact h
      · intro w hw
        exact huniq w (List.mem_cons_of_mem _ hw)

theorem nodupKeys_value_unique {β : Type} {m : List (String × β)} {k : String}
    {v w : β} (hnd : NodupKeys m) (hv : (k, v) ∈ m) (hw : (k, w) ∈ m) : w = v := by
  induction m with
  | nil => simp at hv
  | cons p rest ih =>
    rw [NodupKeys, List.map_cons, List.nodup_cons] at hnd
    rcases List.mem_cons.mp hw with h1 | h1 <;> rcases List.mem_cons.mp hv with h2 | h2
    · rw [← h2] at h1
      exact congrArg Prod.snd h1
    · exfalso
      apply hnd.1
      have hpk : p.1 = k := by rw [← h1]
      rw [hpk]
      exact List.mem_map_of_mem Prod.fst h2
    · exfalso
      apply hnd.1
      have hpk : p.1 = k := by rw [← h2]
      rw [hpk]
      exact List.mem_map_of_mem Prod.fst h1
    · exact ih hnd.2 h2 h1

theorem dictGet_of_nodupKeys {β : Type} {k : String} {v : β} {m : List (String × β)}
    (hnd : NodupKeys m) (hmem : (k, v) ∈ m) : dictGet k m = some v := by
  apply dictGet_of_mem_unique hmem
  intro w hw
  exact nodupKeys_value_unique hnd hmem hw

theorem dictGet_set {β : Type} (k a : String) (v : β) (m : List (String × β)) :
    dictGet k (dictSet a v m) = if k = a then some v else dictGet k m := by
  induction m with
  | nil =>
    by_cases hk : k = a
    · subst hk
      simp [dictSet, dictGet]
    · have hak : ¬(a = k) := fun h => hk h.symm
      simp [dictSet, dictGet, hk, hak]
  | cons p rest ih =>
    by_cases ha : p.1 = a
    · rw [dictSet, if_pos ha]
      by_cases hk : k = a
      · subst hk
        simp [dictGet]
      · have hak : ¬(a = k) := fun h => hk h.symm
        have hpk : ¬(p.1 = k) := by rw [ha]; exact hak
        simp [dictGet, hak, hk, hpk]
    · rw [dictSet, if_neg ha]
      by_cases hp : p.1 = k
      · have hk : ¬(k = a) := by rw [← hp]; exact ha
        simp [dictGet, hp, hk]
      · simp [dictGet, hp, ih]

theorem dictGet_remove {β : Type} (k a : String) (m : List (String × β)) :
    dictGet k (dictRemove a m) = if k = a then none else dictGet k m := by
  induction m with
  | nil => simp [dictRemove, dictGet]
  | cons p rest ih =>
    by_cases ha : p.1 = a
    · rw [dictRemove, if_pos ha]
      by_cases hk : k = a
      · subst hk
        simp [ih]
      · have hpk : ¬(p.1 = k) := by rw [ha]; exact fun h => hk h.symm
        simp [ih, hk, dictGet, hpk]
    · rw [dictRemove, if_neg ha]
      by_cases hp : p.1 = k
      · have hk : ¬(k = a) := by rw [← hp]; exact ha
        simp [dictGet, hp, hk]
      · simp [dictGet, hp, ih]

theorem dictSet_append {β : Type} (a : String) (v : β) (m : List (String × β))
    (h : dictGet a m = none) : dictSet a v m = m ++ [(a, v)] := by
  induction m with
  | nil => rfl
  | cons p rest ih =>
    rw [dictGet] at h
    by_cases ha : p.1 = a
    · rw [if_pos ha] at h
      exact absurd h (by simp)
    · rw [if_neg ha] at h
      rw [dictSet, if_neg ha, ih h, List.cons_append]

theorem dictGet_append_none {β : Type} (k : String) (m1 m2 : List (String × β))
    (h1 : dictGet k m1 = none) : dictGet k (m1 ++ m2) = dictGet k m2 := by
  induction m1 with
  | nil => rfl
  | cons p rest ih =>
    rw [dictGet] at h1
    by_cases hk : p.1 = k
    · rw [if_pos hk] at h1
      exact absurd h1 (by simp)
    · rw [if_neg hk] at h1
      rw [List.cons_append, dictGet, if_neg hk, ih h1]

/-! ### Claim C1: the reconciliation remap -/

theorem nameCount_unique {levels : List LevelRec} {nm : String}
    (h : nameCount levels nm = 1) :
    ∀ l ∈ levels, ∀ l2 ∈ levels, l.name = nm → l2.name = nm → l = l2 := by
  intro l hl l2 hl2 h1 h2
  unfold nameCount at h
  obtain ⟨x, hx⟩ := List.length_eq_one.mp h
  have m1 : l ∈ levels.filter (fun l => l.name == nm) :=
    List.mem_filter.mpr ⟨hl, by simp [h1]⟩
  have m2 : l2 ∈ levels.filter (fun l => l.name == nm) :=
    List.mem_filter.mpr ⟨hl2, by simp [h2]⟩
  rw [hx] at m1 m2
  simp only [List.mem_singleton] at m1 m2
  rw [m1, m2]

theorem uniqueNameMap_mem (levels : List LevelRec) (nm num : String) :
    (nm, num) ∈ uniqueNameMap levels
      ↔ nameCount levels nm = 1 ∧ ∃ l ∈ levels, l.name = nm ∧ l.number = num := by
  unfold uniqueNameMap
  rw [List.mem_map]
  constructor
  · rintro ⟨l, hl, heq⟩
    have h1 := (List.mem_filter.mp hl).1
    have h2 := (List.mem_filter.mp hl).2
    rw [Prod.mk.injEq] at heq
    simp only [beq_iff_eq] at h2
    rw [heq.1] at h2
    exact ⟨h2, l, h1, heq.1, heq.2⟩
  · rintro ⟨hc, l, hl, h1, h2⟩
    refine ⟨l, List.mem_filter.mpr ⟨hl, by simp [h1, hc]⟩, ?_⟩
    rw [Prod.mk.injEq]
    exact ⟨h1, h2⟩

theorem dictGet_uniqueNameMap (levels : List LevelRec) (nm num : String) :
    dictGet nm (uniqueNameMap levels) = some num ↔ (nm, num) ∈ uniqueNameMap levels := by
  constructor
  · exact dictGet_mem
  · intro hmem
    apply dictGet_of_mem_unique hmem
    intro w hw
    obtain ⟨hc1, l, hl, hn1, hv1⟩ := (uniqueNameMap_mem levels nm num).mp hmem
    obtain ⟨_, l2, hl2, hn2, hv2⟩ := (uniqueNameMap_mem levels nm w).mp hw
    have hll : l2 = l := nameCount_unique hc1 l2 hl2 l hl hn2 hn1
    rw [← hv2, hll, hv1]

theorem buildRemapAux_eq (newMap : List (String × String)) :
    ∀ (entries acc : List (String × String)),
      (entries.map Prod.snd).Nodup →
      (∀ q ∈ entries, dictGet q.2 acc = none) →
      buildRemapAux newMap entries acc = acc ++ remapEntries newMap entries := by
  intro entries
  induction entries with
  | nil => intro acc _ _; simp [buildRemapAux, remapEntries]
  | cons q rest ih =>
    intro acc hnd hacc
    obtain ⟨nm, a⟩ := q
    rw [List.map_cons, List.nodup_cons] at hnd
    simp only [buildRemapAux, remapEntries, List.filterMap_cons]
    cases hg : dictGet nm newMap with
    | none =>
      simp only [hg]
      rw [ih acc hnd.2 (fun q hq => hacc q (List.mem_cons_of_mem _ hq))]
      rfl
    | some nb =>
      simp only [hg]
      by_cases hcond : (nb ≠ "" && nb ≠ a) = true
      · rw [if_pos hcond, if_pos hcond]
        have haacc : dictGet a acc = none := hacc (nm, a) (List.mem_cons_self _ _)
        rw [dictSet_append a nb acc haacc]
        rw [ih (acc ++ [(a, nb)]) hnd.2 ?_]
        · rw [List.append_assoc]
          rfl
        · intro q hq
          rw [dictGet_append_none q.2 acc [(a, nb)]
            (hacc q (List.mem_cons_of_mem _ hq))]
          have hqa : ¬(a = q.2) := by
            intro heq
            apply hnd.1
            rw [heq]
            exact List.mem_map.mpr ⟨q, hq, rfl⟩
          simp [dictGet, hqa]
      · rw [if_neg hcond, if_neg hcond]
        rw [ih acc hnd.2 (fun q hq => hacc q (List.mem_cons_of_mem _ hq))]
        rfl

theorem buildRemap_eq (oldLevels newLevels : List LevelRec)
    (h : ((uniqueNameMap oldLevels).map Prod.snd).Nodup) :
    buildRemap oldLevels newLevels
      = remapEntries (uniqueNameMap newLevels) (uniqueNameMap oldLevels) := by
  unfold buildRemap
  rw [buildRemapAux_eq _ _ [] h (fun q _ => rfl)]
  rfl

theorem remapEntries_mem (newMap oldMap : List (String × String)) (a b : String) :
    (a, b) ∈ remapEntries newMap oldMap
      ↔ ∃ nm, (nm, a) ∈ oldMap ∧ dictGet nm newMap = some b ∧ b ≠ "" ∧ b ≠ a := by
  unfold remapEntries
  rw [List.mem_filterMap]
  constructor
  · rintro ⟨q, hq, hfq⟩
    obtain ⟨nm, a0⟩ := q
    cases hg : dictGet nm newMap with
    | none =>
      rw [hg] at hfq
      have hfq2 : (none : Option (String × String)) = some (a, b) := hfq
      exact absurd hfq2 (by simp)
    | some nb =>
      rw [hg] at hfq
      have hfq2 : (if (nb ≠ "" && nb ≠ a0) = true then some (a0, nb) else none)
          = some (a, b) := hfq
      by_cases hcond : (nb ≠ "" && nb ≠ a0) = true
      · rw [if_pos hcond] at hfq2
        injection hfq2 with hfq2
        rw [Prod.mk.injEq] at hfq2
        simp only [ne_eq, Bool.and_eq_true, decide_eq_true_eq] at hcond
        refine ⟨nm, ?_, ?_, ?_, ?_⟩
        · rw [← hfq2.1]
          exact hq
        · rw [← hfq2.2]
          exact hg
        · rw [← hfq2.2]
          exact hcond.1
        · rw [← hfq2.2, ← hfq2.1]
          exact hcond.2
      · rw [if_neg hcond] at hfq2
        exact absurd hfq2 (by simp)
  · rintro ⟨nm, hmem, hget, hne, hba⟩
    refine ⟨(nm, a), hmem, ?_⟩
    simp only [hget]
    rw [if_pos (by simp [hne, hba])]

theorem filterMap_fst_sublist {f : String × String → Option (String × String)}
    (hf : ∀ q r, f q = some r → r.1 = q.2) :
    ∀ m : List (String × String),
      ((m.filterMap f).map Prod.fst).Sublist (m.map Prod.snd) := by
  intro m
  induction m with
  | nil => simp
  | cons q rest ih =>
    rw [List.filterMap_cons]
    cases hfq : f q with
    | none =>
      rw [List.map_cons]
      exact List.Sublist.cons q.2 ih
    | some r =>
      rw [List.map_cons, List.map_cons, hf q r hfq]
      exact List.Sublist.cons₂ q.2 ih

theorem remapEntries_keys_sublist (newMap oldMap : List (String × String)) :
    ((remapEntries newMap oldMap).map Prod.fst).Sublist (oldMap.map Prod.snd) := by
  apply filterMap_fst_sublist
  intro q r hq
  cases hg : dictGet q.1 newMap with
  | none =>
    rw [hg] at hq
    have hq2 : (none : Option (String × String)) = some r := hq
    exact absurd hq2 (by simp)
  | some nb =>
    rw [hg] at hq
    have hq2 : (if (nb ≠ "" && nb ≠ q.2) = true then some (q.2, nb) else none)
        = some r := hq
    by_cases hcond : (nb ≠ "" && nb ≠ q.2) = true
    · rw [if_pos hcond] at hq2
      injection hq2 with hq2
      rw [← hq2]
    · rw [if_neg hcond] at hq2
      exact absurd hq2 (by simp)

theorem uniqueNameMap_snd_sublist (levels : List LevelRec) :
    ((uniqueNameMap levels).map Prod.snd).Sublist (levels.map LevelRec.number) := by
  unfold uniqueNameMap
  rw [List.map_map]
  exact (List.filter_sublist levels).map _

/-- Claim C1: the name-to-number map of each scan holds exactly the names
unique within that scan; for scans with distinct and truthy numbers the
remap holds an entry old-number to new-number exactly for the names in
both maps whose numbers differ; the concrete one-level rename scenario
produces the remap 10 to 20 with count 1 and moves the hotkey keyed on 10
to 20; and with no old scan, reconciliation is a no-op returning 0. -/
theorem C1_reconcile_remap :
    (∀ (levels : List LevelRec) (nm num : String),
      dictGet nm (uniqueNameMap levels) = some num
        ↔ nameCount levels nm = 1 ∧ ∃ l ∈ levels, l.name = nm ∧ l.number = num)
    ∧ (∀ (oldLevels newLevels : List LevelRec) (a b : String),
        (oldLevels.map LevelRec.number).Nodup →
        (∀ l ∈ newLevels, l.number ≠ "") →
        (dictGet a (buildRemap oldLevels newLevels) = some b
          ↔ ∃ nm, dictGet nm (uniqueNameMap oldLevels) = some a
              ∧ dictGet nm (uniqueNameMap newLevels) = some b ∧ b ≠ a))
    ∧ buildRemap [mkLevel "10" "Body"] [mkLevel "20" "Body"] = [("10", "20")]
    ∧ reconcileNumbers [mkLevel "10" "Body"] [mkLevel "20" "Body"]
        ⟨[("10", sampleHotkeyA)], []⟩ = (⟨[("20", sampleHotkeyA)], []⟩, 1)
    ∧ (∀ (newLevels : List LevelRec) (st : AppState),
        reconcileNumbers [] newLevels st = (st, 0)) := by
  refine ⟨?_, ?_, by decide, by decide, fun newLevels st => rfl⟩
  · intro levels nm num
    rw [dictGet_uniqueNameMap, uniqueNameMap_mem]
  · intro oldLevels newLevels a b hnodup hne
    have hvals : ((uniqueNameMap oldLevels).map Prod.snd).Nodup :=
      List.Nodup.sublist (uniqueNameMap_snd_sublist oldLevels) hnodup
    rw [buildRemap_eq oldLevels newLevels hvals]
    constructor
    · intro h
      obtain ⟨nm, hmem, hget, _, hba⟩ :=
        (remapEntries_mem _ _ a b).mp (dictGet_mem h)
      exact ⟨nm, (dictGet_uniqueNameMap oldLevels nm a).mpr hmem, hget, hba⟩
    · rintro ⟨nm, h1, h2, hba⟩
      have hb : b ≠ "" := by
        obtain ⟨_, l, hl, _, hv⟩ := (uniqueNameMap_mem newLevels nm b).mp (dictGet_mem h2)
        rw [← hv]
        exact hne l hl
      apply dictGet_of_nodupKeys
      · exact List.Nodup.sublist (remapEntries_keys_sublist _ _) hvals
      · exact (remapEntries_mem _ _ a b).mpr ⟨nm, dictGet_mem h1, h2, hb, hba⟩

/-- Witness for C1: the remap of the concrete rename scenario, obtained
through the general characterization. -/
theorem C1_reconcile_remap_witness :
    dictGet "10" (buildRemap [mkLevel "10" "Body"] [mkLevel "20" "Body"]) = some "20" := by
  exact (C1_reconcile_remap.2.1 [mkLevel "10" "Body"] [mkLevel "20" "Body"] "10" "20"
    (by decide) (by decide)).mpr ⟨"Body", by decide, by decide, by decide⟩

/-! ### Claim C2: idempotence of remap application -/

theorem applyRemapMembers_idem (remap : List (String × String)) (ms : List String)
    (h3 : ∀ p ∈ remap, dictGet p.2 remap = none) :
    applyRemapMembers remap (applyRemapMembers remap ms) = applyRemapMembers remap ms := by
  unfold applyRemapMembers
  rw [List.map_map]
  apply List.map_congr_left
  intro n _
  simp only [Function.comp]
  cases hg : dictGet n remap with
  | none => simp [hg]
  | some b =>
    have hb : dictGet b remap = none := h3 (n, b) (dictGet_mem hg)
    simp [hg, hb]

theorem applyRemapHotkeys_get_none (remap : List (String × String)) :
    ∀ (m : List (String × Hotkey)) (k : String), dictGet k m = none →
      (∀ p ∈ remap, p.2 ≠ k) → dictGet k (applyRemapHotkeys remap m) = none := by
  induction remap with
  | nil => intro m k h _; exact h
  | cons q rest ih =>
    intro m k h hne
    obtain ⟨a, b⟩ := q
    rw [applyRemapHotkeys]
    apply ih
    · unfold popSet
      cases hg : dictGet a m with
      | none => exact h
      | some v =>
        rw [dictGet_set, dictGet_remove]
        have hbk : ¬(k = b) := by
          intro he
          exact hne (a, b) (List.mem_cons_self _ _) (by rw [he])
        rw [if_neg hbk]
        by_cases hka : k = a
        · rw [if_pos hka]
        · rw [if_neg hka]
          exact h
    · intro p hp
      exact hne p (List.mem_cons_of_mem _ hp)

theorem applyRemapHotkeys_doms_removed (remap : List (String × String))
    (hsep : ∀ p ∈ remap, ∀ q ∈ remap, q.2 ≠ p.1) :
    ∀ (m : List (String × Hotkey)), ∀ p ∈ remap,
      dictGet p.1 (applyRemapHotkeys remap m) = none := by
  induction remap with
  | nil => intro m p hp; simp at hp
  | cons q rest ih =>
    intro m p hp
    obtain ⟨a, b⟩ := q
    rw [applyRemapHotkeys]
    rcases List.mem_cons.mp hp with h | h
    · rw [h]
      apply applyRemapHotkeys_get_none rest (popSet a b m) ((a, b).1)
      · unfold popSet
        cases hg : dictGet a m with
        | none => exact hg
        | some v =>
          rw [dictGet_set, dictGet_remove]
          have hab : ¬(a = b) := by
            intro he
            exact (hsep (a, b) (List.mem_cons_self _ _) (a, b)
              (List.mem_cons_self _ _)) he.symm
          rw [if_neg hab, if_pos rfl]
      · intro r hr
        exact hsep (a, b) (List.mem_cons_self _ _) r (List.mem_cons_of_mem _ hr)
    · exact ih (fun p hp q hq =>
        hsep p (List.mem_cons_of_mem _ hp) q (List.mem_cons_of_mem _ hq))
        (popSet a b m) p h

theorem applyRemapHotkeys_noop (remap : List (String × String)) :
    ∀ (m : List (String × Hotkey)), (∀ p ∈ remap, dictGet p.1 m = none) →
      applyRemapHotkeys remap m = m := by
  induction remap with
  | nil => intro m _; rfl
  | cons q rest ih =>
    intro m h
    obtain ⟨a, b⟩ := q
    rw [applyRemapHotkeys]
    have hpop : popSet a b m = m := by
      unfold popSet
      rw [h (a, b) (List.mem_cons_self _ _)]
    rw [hpop]
    exact ih m (fun p hp => h p (List.mem_cons_of_mem _ hp))

theorem applyRemapHotkeys_idem (remap : List (String × String))
    (hk : List (String × Hotkey)) (h3 : ∀ p ∈ remap, dictGet p.2 remap = none) :
    applyRemapHotkeys remap (applyRemapHotkeys remap hk) = applyRemapHotkeys remap hk := by
  have hsep : ∀ p ∈ remap, ∀ q ∈ remap, q.2 ≠ p.1 := by
    intro p hp q hq
    have hne := (dictGet_eq_none_iff q.2 remap).mp (h3 q hq) p hp
    exact Ne.symm hne
  apply applyRemapHotkeys_noop
  intro p hp
  exact applyRemapHotkeys_doms_removed remap hsep hk p hp

theorem dictRemove_id {β : Type} (a : String) :
    ∀ m : List (String × β), (∀ p ∈ m, p.1 ≠ a) → dictRemove a m = m := by
  intro m
  induction m with
  | nil => intro _; rfl
  | cons p rest ih =>
    intro h
    rw [dictRemove, if_neg (h p (List.mem_cons_self _ _)),
      ih (fun q hq => h q (List.mem_cons_of_mem _ hq))]

theorem dictRemove_sublist {β : Type} (a : String) :
    ∀ m : List (String × β), (dictRemove a m).Sublist m := by
  intro m
  induction m with
  | nil => exact List.Sublist.refl _
  | cons p rest ih =>
    rw [dictRemove]
    by_cases hp : p.1 = a
    · rw [if_pos hp]
      exact List.Sublist.cons p ih
    · rw [if_neg hp]
      exact List.Sublist.cons₂ p ih

theorem values_perm_remove {m : List (String × Hotkey)} {a : String} {v : Hotkey}
    (hnd : NodupKeys m) (hg : dictGet a m = some v) :
    (m.map Prod.snd).Perm (v :: (dictRemove a m).map Prod.snd) := by
  induction m with
  | nil => simp [dictGet] at hg
  | cons p rest ih =>
    rw [NodupKeys, List.map_cons, List.nodup_cons] at hnd
    rw [dictGet] at hg
    by_cases ha : p.1 = a
    · rw [if_pos ha] at hg
      injection hg with hg
      rw [dictRemove, if_pos ha]
      have hrest : dictRemove a rest = rest := by
        apply dictRemove_id
        intro q hq
        intro he
        apply hnd.1
        have hq1 : q.1 = p.1 := by rw [he, ← ha]
        rw [← hq1]
        exact List.mem_map.mpr ⟨q, hq, rfl⟩
      rw [hrest, List.map_cons, hg]
    · rw [if_neg ha] at hg
      rw [dictRemove, if_neg ha, List.map_cons, List.map_cons]
      have hperm := ih hnd.2 hg
      exact (hperm.cons p.2).trans (List.Perm.swap v p.2 _)

theorem popSet_values_perm (a b : String) (m : List (String × Hotkey))
    (hnd : NodupKeys m) (hb : dictGet b m = none) :
    ((popSet a b m).map Prod.snd).Perm (m.map Prod.snd) := by
  cases hg : dictGet a m with
  | none =>
    have hred : popSet a b m = m := by
      unfold popSet
      rw [hg]
    rw [hred]
  | some v =>
    have hred : popSet a b m = dictSet b v (dictRemove a m) := by
      unfold popSet
      rw [hg]
    have hbrem : dictGet b (dictRemove a m) = none := by
      rw [dictGet_remove]
      by_cases hba : b = a
      · rw [if_pos hba]
      · rw [if_neg hba]
        exact hb
    rw [hred, dictSet_append b v _ hbrem, List.map_append]
    have h1 : ((dictRemove a m).map Prod.snd ++ [v]).Perm
        (v :: (dictRemove a m).map Prod.snd) := List.perm_append_singleton v _
    exact h1.trans (values_perm_remove hnd hg).symm

theorem popSet_nodupKeys (a b : String) (m : List (String × Hotkey))
    (hnd : NodupKeys m) (hb : dictGet b m = none) : NodupKeys (popSet a b m) := by
  cases hg : dictGet a m with
  | none =>
    have hred : popSet a b m = m := by
      unfold popSet
      rw [hg]
    rw [hred]
    exact hnd
  | some v =>
    have hred : popSet a b m = dictSet b v (dictRemove a m) := by
      unfold popSet
      rw [hg]
    have hbrem : dictGet b (dictRemove a m) = none := by
      rw [dictGet_remove]
      by_cases hba : b = a
      · rw [if_pos hba]
      · rw [if_neg hba]
        exact hb
    rw [hred, dictSet_append b v _ hbrem]
    rw [NodupKeys, List.map_append]
    apply List.Nodup.append
    · exact List.Nodup.sublist ((dictRemove_sublist a m).map Prod.fst) hnd
    · simp
    · intro x hx
      simp only [List.map_cons, List.map_nil, List.mem_singleton]
      intro he
      obtain ⟨q, hq, hqx⟩ := List.mem_map.mp hx
      have := (dictGet_eq_none_iff b (dictRemove a m)).mp hbrem q hq
      rw [hqx] at this
      exact this he

theorem applyRemapHotkeys_values_perm :
    ∀ (remap : List (String × String)) (m : List (String × Hotkey)),
      NodupKeys m → (remap.map Prod.snd).Nodup →
      (∀ p ∈ remap, dictGet p.2 m = none) →
      ((applyRemapHotkeys remap m).map Prod.snd).Perm (m.map Prod.snd) := by
  intro remap
  induction remap with
  | nil => intro m _ _ _; exact List.Perm.refl _
  | cons q rest ih =>
    intro m hnd hsnds h
    obtain ⟨a, b⟩ := q
    rw [List.map_cons, List.nodup_cons] at hsnds
    rw [applyRemapHotkeys]
    have hb : dictGet b m = none := h (a, b) (List.mem_cons_self _ _)
    have hstepNone : ∀ p ∈ rest, dictGet p.2 (popSet a b m) = none := by
      intro p hp
      unfold popSet
      cases hg : dictGet a m with
      | none => exact h p (List.mem_cons_of_mem _ hp)
      | some v =>
        rw [dictGet_set, dictGet_remove]
        have hpb : ¬(p.2 = b) := by
          intro he
          apply hsnds.1
          rw [← he]
          exact List.mem_map.mpr ⟨p, hp, rfl⟩
        rw [if_neg hpb]
        by_cases hpa : p.2 = a
        · rw [if_pos hpa]
        · rw [if_neg hpa]
          exact h p (List.mem_cons_of_mem _ hp)
    exact (ih (popSet a b m) (popSet_nodupKeys a b m hnd hb) hsnds.2 hstepNone).trans
      (popSet_values_perm a b m hnd hb)

/-- Claim C2, counterexample: the remap computed from the scan pair where
Alpha moves from number 1 to 2 and Beta from 3 to 1 chains, and applying
it twice to a group member list or to the hotkey map changes the state a
second time, so the application is not idempotent as claimed. -/
theorem C2_counterexample :
    buildRemap [mkLevel "1" "Alpha", mkLevel "3" "Beta"]
        [mkLevel "2" "Alpha", mkLevel "1" "Beta"] = [("1", "2"), ("3", "1")]
    ∧ applyRemapMembers [("1", "2"), ("3", "1")]
        (applyRemapMembers [("1", "2"), ("3", "1")] ["3"])
      ≠ applyRemapMembers [("1", "2"), ("3", "1")] ["3"]
    ∧ applyRemapHotkeys [("1", "2"), ("3", "1")]
        (applyRemapHotkeys [("1", "2"), ("3", "1")]
          [("1", sampleHotkeyA), ("3", sampleHotkeyB)])
      ≠ applyRemapHotkeys [("1", "2"), ("3", "1")]
          [("1", sampleHotkeyA), ("3", sampleHotkeyB)] := by
  refine ⟨by decide, by decide, by decide⟩

/-- Claim C2, amended: provided no new number of the remap is itself an
old number of the remap (no chained renumbering), applying the remap twice
to the hotkey map and to group member lists yields exactly the state of
applying it once; and provided additionally that the new numbers are
pairwise distinct and fresh with respect to the hotkey keys, the
application never loses or duplicates hotkey entries (the stored hotkey
values are a permutation of the originals) or group member entries (the
member count is preserved). -/
theorem C2_remap_application (remap : List (String × String))
    (hk : List (String × Hotkey)) (ms : List String)
    (hnochain : ∀ p ∈ remap, dictGet p.2 remap = none)
    (hsnds : (remap.map Prod.snd).Nodup)
    (hfresh : ∀ p ∈ remap, dictGet p.2 hk = none)
    (hkeys : NodupKeys hk) :
    applyRemapMembers remap (applyRemapMembers remap ms) = applyRemapMembers remap ms
    ∧ (applyRemapMembers remap ms).length = ms.length
    ∧ applyRemapHotkeys remap (applyRemapHotkeys remap hk) = applyRemapHotkeys remap hk
    ∧ ((applyRemapHotkeys remap hk).map Prod.snd).Perm (hk.map Prod.snd) := by
  refine ⟨applyRemapMembers_idem remap ms hnochain, ?_,
    applyRemapHotkeys_idem remap hk hnochain,
    applyRemapHotkeys_values_perm remap hk hkeys hsnds hfresh⟩
  unfold applyRemapMembers
  exact List.length_map _ _

/-- Witness for C2 at a non-chaining remap produced by the rename scenario. -/
theorem C2_remap_application_witness :
    applyRemapHotkeys [("10", "20")]
        (applyRemapHotkeys [("10", "20")] [("10", sampleHotkeyA)])
      = applyRemapHotkeys [("10", "20")] [("10", sampleHotkeyA)]
    ∧ applyRemapMembers [("10", "20")] (applyRemapMembers [("10", "20")] ["10", "7"])
      = applyRemapMembers [("10", "20")] ["10", "7"] := by
  have h := C2_remap_application [("10", "20")] [("10", sampleHotkeyA)] ["10", "7"]
    (by decide) (by decide) (by decide) (by unfold NodupKeys; decide)
  exact ⟨h.2.2.1, h.1⟩

/-! ### Claim C3: hotkey conflicts are rejected, live hotkeys stay distinct -/

theorem findLevelConflict_none_iff (target : RecTarget) (hk : Hotkey) :
    ∀ l : List (String × Hotkey),
      findLevelConflict target hk l = none
        ↔ ∀ p ∈ l, target = RecTarget.level p.1 ∨ p.2 ≠ hk := by
  intro l
  induction l with
  | nil => simp [findLevelConflict]
  | cons p rest ih =>
    obtain ⟨num, ehk⟩ := p
    rw [findLevelConflict]
    by_cases ht : target = RecTarget.level num
    · rw [if_pos ht, ih]
      constructor
      · intro h q hq
        rcases List.mem_cons.mp hq with h1 | h1
        · left
          rw [h1]
          exact ht
        · exact h q h1
      · intro h q hq
        exact h q (List.mem_cons_of_mem _ hq)
    · rw [if_neg ht]
      by_cases he : ehk = hk
      · rw [if_pos he]
        constructor
        · intro h
          exact absurd h (by simp)
        · intro h
          rcases h (num, ehk) (List.mem_cons_self _ _) with h1 | h1
          · exact absurd h1 ht
          · exact absurd he h1
      · rw [if_neg he, ih]
        constructor
        · intro h q hq
          rcases List.mem_cons.mp hq with h1 | h1
          · right
            rw [h1]
            exact he
          · exact h q h1
        · intro h q hq
          exact h q (List.mem_cons_of_mem _ hq)

theorem findGroupConflict_none_iff (target : RecTarget) (hk : Hotkey) :
    ∀ l : List (String × Group),
      findGroupConflict target hk l = none
        ↔ ∀ q ∈ l, target = RecTarget.group q.1 ∨ q.2.hotkey ≠ some hk := by
  intro l
  induction l with
  | nil => simp [findGroupConflict]
  | cons p rest ih =>
    obtain ⟨name, g⟩ := p
    rw [findGroupConflict]
    by_cases ht : target = RecTarget.group name
    · rw [if_pos ht, ih]
      constructor
      · intro h q hq
        rcases List.mem_cons.mp hq with h1 | h1
        · left
          rw [h1]
          exact ht
        · exact h q h1
      · intro h q hq
        exact h q (List.mem_cons_of_mem _ hq)
    · rw [if_neg ht]
      by_cases he : g.hotkey = some hk
      · rw [if_pos he]
        constructor
        · intro h
          exact absurd h (by simp)
        · intro h
          rcases h (name, g) (List.mem_cons_self _ _) with h1 | h1
          · exact absurd h1 ht
          · exact absurd he h1
      · rw [if_neg he, ih]
        constructor
        · intro h q hq
          rcases List.mem_cons.mp hq with h1 | h1
          · right
            rw [h1]
            exact he
          · exact h q h1
        · intro h q hq
          exact h q (List.mem_cons_of_mem _ hq)

theorem dictSet_values_subset (t : String) (hk : Hotkey) :
    ∀ (m : List (String × Hotkey)) (x : Hotkey),
      x ∈ (dictSet t hk m).map Prod.snd → x = hk ∨ x ∈ m.map Prod.snd := by
  intro m
  induction m with
  | nil =>
    intro x hx
    simp [dictSet] at hx
    exact Or.inl hx
  | cons p rest ih =>
    intro x hx
    rw [dictSet] at hx
    by_cases hp : p.1 = t
    · rw [if_pos hp, List.map_cons] at hx
      rcases List.mem_cons.mp hx with h | h
      · exact Or.inl h
      · exact Or.inr (by rw [List.map_cons]; exact List.mem_cons_of_mem _ h)
    · rw [if_neg hp, List.map_cons] at hx
      rcases List.mem_cons.mp hx with h | h
      · exact Or.inr (by rw [h, List.map_cons]; exact List.mem_cons_self _ _)
      · rcases ih x h with h1 | h1
        · exact Or.inl h1
        · exact Or.inr (by rw [List.map_cons]; exact List.mem_cons_of_mem _ h1)

theorem dictSet_values_nodup (t : String) (hk : Hotkey) :
    ∀ (m : List (String × Hotkey)) (G : List Hotkey),
      NodupKeys m →
      (m.map Prod.snd ++ G).Nodup →
      (∀ p ∈ m, p.1 ≠ t → p.2 ≠ hk) →
      hk ∉ G →
      ((dictSet t hk m).map Prod.snd ++ G).Nodup := by
  intro m
  induction m with
  | nil =>
    intro G _ hall _ hG
    rw [dictSet]
    simp only [List.map_cons, List.map_nil, List.cons_append, List.nil_append]
    rw [List.nodup_cons]
    exact ⟨hG, by simpa using hall⟩
  | cons p rest ih =>
    intro G hnd hall hconf hG
    rw [NodupKeys, List.map_cons, List.nodup_cons] at hnd
    rw [List.map_cons, List.cons_append, List.nodup_cons] at hall
    rw [dictSet]
    by_cases hp : p.1 = t
    · rw [if_pos hp, List.map_cons, List.cons_append, List.nodup_cons]
      constructor
      · intro hmem
        rcases List.mem_append.mp hmem with h | h
        · obtain ⟨q, hq, hqv⟩ := List.mem_map.mp h
          have hq1 : q.1 ≠ t := by
            intro he
            apply hnd.1
            rw [hp, ← he]
            exact List.mem_map.mpr ⟨q, hq, rfl⟩
          exact hconf q (List.mem_cons_of_mem _ hq) hq1 hqv
        · exact hG h
      · exact hall.2
    · rw [if_neg hp, List.map_cons, List.cons_append, List.nodup_cons]
      constructor
      · intro hmem
        rcases List.mem_append.mp hmem with h | h
        · rcases dictSet_values_subset t hk rest p.2 h with h1 | h1
          · exact hconf p (List.mem_cons_self _ _) hp h1
          · exact hall.1 (List.mem_append.mpr (Or.inl h1))
        · exact hall.1 (List.mem_append.mpr (Or.inr h))
      · exact ih G hnd.2 hall.2 (fun q hq => hconf q (List.mem_cons_of_mem _ hq)) hG

theorem setGroupHotkey_hks_nodup (gn : String) (hk : Hotkey) :
    ∀ (gs : List (String × Group)) (H : List Hotkey),
      NodupKeys gs →
      (H ++ gs.filterMap (fun q => q.2.hotkey)).Nodup →
      (∀ q ∈ gs, q.1 ≠ gn → q.2.hotkey ≠ some hk) →
      hk ∉ H →
      (H ++ (setGroupHotkey gn hk gs).filterMap (fun q => q.2.hotkey)).Nodup := by
  intro gs
  induction gs with
  | nil =>
    intro H _ hall _ _
    simpa [setGroupHotkey] using hall
  | cons q rest ih =>
    intro H hgk hall hconf hH
    obtain ⟨name, g⟩ := q
    rw [NodupKeys, List.map_cons, List.nodup_cons] at hgk
    rw [setGroupHotkey, List.map_cons]
    by_cases hqn : name = gn
    · rw [if_pos (show (name, g).1 = gn from hqn)]
      show (H ++ ((name, { g with hotkey := some hk }) ::
          rest.map (fun p => if p.1 = gn then (p.1, { p.2 with hotkey := some hk }) else p)).filterMap
          (fun q => q.2.hotkey)).Nodup
      have hrest : rest.map (fun p =>
          if p.1 = gn then (p.1, { p.2 with hotkey := some hk }) else p) = rest := by
        conv_rhs => rw [← List.map_id rest]
        apply List.map_congr_left
        intro r hr
        have hr1 : ¬(r.1 = gn) := by
          intro he
          apply hgk.1
          rw [hqn, ← he]
          exact List.mem_map.mpr ⟨r, hr, rfl⟩
        rw [if_neg hr1]
        rfl
      have hfm2 : ((name, { g with hotkey := some hk }) :: rest).filterMap
          (fun q => q.2.hotkey) = hk :: rest.filterMap (fun q => q.2.hotkey) := by
        rw [List.filterMap_cons]
      rw [hrest, hfm2]
      have htail : (H ++ rest.filterMap (fun q => q.2.hotkey)).Nodup := by
        cases hgh : g.hotkey with
        | none =>
          have hfm : ((name, g) :: rest).filterMap (fun q => q.2.hotkey)
              = rest.filterMap (fun q => q.2.hotkey) := by
            rw [List.filterMap_cons]
            simp [hgh]
          rw [hfm] at hall
          exact hall
        | some v =>
          have hfm : ((name, g) :: rest).filterMap (fun q => q.2.hotkey)
              = v :: rest.filterMap (fun q => q.2.hotkey) := by
            rw [List.filterMap_cons]
            simp [hgh]
          rw [hfm] at hall
          have hperm2 : (H ++ v :: rest.filterMap (fun q => q.2.hotkey)).Perm
              (v :: (H ++ rest.filterMap (fun q => q.2.hotkey))) := List.perm_middle
          rw [hperm2.nodup_iff, List.nodup_cons] at hall
          exact hall.2
      have hperm : (H ++ hk :: rest.filterMap (fun q => q.2.hotkey)).Perm
          (hk :: (H ++ rest.filterMap (fun q => q.2.hotkey))) := List.perm_middle
      rw [hperm.nodup_iff, List.nodup_cons]
      refine ⟨?_, htail⟩
      intro hmem
      rcases List.mem_append.mp hmem with h | h
      · exact hH h
      · obtain ⟨r, hr, hrv⟩ := List.mem_filterMap.mp h
        have hr1 : r.1 ≠ gn := by
          intro he
          apply hgk.1
          rw [hqn, ← he]
          exact List.mem_map.mpr ⟨r, hr, rfl⟩
        exact hconf r (List.mem_cons_of_mem _ hr) hr1 hrv
    · rw [if_neg (show ¬(name, g).1 = gn from hqn)]
      cases hgh : g.hotkey with
      | none =>
        have hfm : ∀ tail : List (String × Group),
            ((name, g) :: tail).filterMap (fun q => q.2.hotkey)
              = tail.filterMap (fun q => q.2.hotkey) := by
          intro tail
          rw [List.filterMap_cons]
          simp [hgh]
        rw [hfm] at hall
        rw [hfm]
        exact ih H hgk.2 hall (fun r hr => hconf r (List.mem_cons_of_mem _ hr)) hH
      | some v =>
        have hfm : ∀ tail : List (String × Group),
            ((name, g) :: tail).filterMap (fun q => q.2.hotkey)
              = v :: tail.filterMap (fun q => q.2.hotkey) := by
          intro tail
          rw [List.filterMap_cons]
          simp [hgh]
        rw [hfm] at hall
        rw [hfm]
        have hknv : hk ∉ H ++ [v] := by
          intro hmem
          rcases List.mem_append.mp hmem with h | h
          · exact hH h
          · rw [List.mem_singleton] at h
            apply hconf (name, g) (List.mem_cons_self _ _) hqn
            rw [hgh, h]
        have hall3 : ((H ++ [v]) ++ rest.filterMap (fun q => q.2.hotkey)).Nodup := by
          rw [List.append_assoc]
          exact hall
        have hres := ih (H ++ [v]) hgk.2 hall3
          (fun r hr => hconf r (List.mem_cons_of_mem _ hr)) hknv
        have hgoal3 : (H ++ v :: (setGroupHotkey gn hk rest).filterMap
            (fun q => q.2.hotkey)).Nodup := by
          rw [show H ++ v :: (setGroupHotkey gn hk rest).filterMap (fun q => q.2.hotkey)
              = (H ++ [v]) ++ (setGroupHotkey gn hk rest).filterMap (fun q => q.2.hotkey) by
            rw [List.append_assoc]
            rfl]
          exact hres
        exact hgoal3

/-- Claim C3: a newly recorded hotkey equal to an existing hotkey on a
different level or group makes the recording finish with a described
conflict and leaves the state untouched; and finishing a recording, with
or without a conflict, preserves the invariant that no two live hotkeys
across levels and groups are equal. -/
theorem C3_hotkey_conflict_rejected (target : RecTarget) (hk : Hotkey) (st : AppState)
    (hlk : NodupKeys st.hotkeys) (hgk : NodupKeys st.groups)
    (hinv : HotkeysDistinct st) :
    ((∃ p ∈ st.hotkeys, p.2 = hk ∧ target ≠ RecTarget.level p.1)
        ∨ (∃ q ∈ st.groups, q.2.hotkey = some hk ∧ target ≠ RecTarget.group q.1) →
      (finishRecording target hk st).1 ≠ RecOutcome.assigned
        ∧ (finishRecording target hk st).2 = st)
    ∧ HotkeysDistinct (finishRecording target hk st).2 := by
  cases hfl : findLevelConflict target hk st.hotkeys with
  | some n =>
    have hfin : finishRecording target hk st = (.conflictLevel n, st) := by
      unfold finishRecording
      rw [hfl]
    rw [hfin]
    exact ⟨fun _ => ⟨by simp, rfl⟩, hinv⟩
  | none =>
    cases hfg : findGroupConflict target hk st.groups with
    | some gn =>
      have hfin : finishRecording target hk st = (.conflictGroup gn, st) := by
        unfold finishRecording
        rw [hfl, hfg]
      rw [hfin]
      exact ⟨fun _ => ⟨by simp, rfl⟩, hinv⟩
    | none =>
      have hlevels := (findLevelConflict_none_iff target hk st.hotkeys).mp hfl
      have hgroups := (findGroupConflict_none_iff target hk st.groups).mp hfg
      constructor
      · rintro (⟨p, hp, hphk, hpt⟩ | ⟨q, hq, hqhk, hqt⟩)
        · rcases hlevels p hp with h | h
          · exact absurd h hpt
          · exact absurd hphk h
        · rcases hgroups q hq with h | h
          · exact absurd h hqt
          · exact absurd hqhk h
      · cases target with
        | level t =>
          have hfin : finishRecording (.level t) hk st
              = (.assigned, { st with hotkeys := dictSet t hk st.hotkeys }) := by
            unfold finishRecording
            rw [hfl, hfg]
          rw [hfin]
          unfold HotkeysDistinct liveHotkeys at hinv ⊢
          simp only
          apply dictSet_values_nodup t hk st.hotkeys _ hlk hinv
          · intro p hp hpt
            rcases hlevels p hp with h | h
            · exfalso
              apply hpt
              injection h with he
              exact he.symm
            · exact h
          · intro hmem
            obtain ⟨q, hq, hqv⟩ := List.mem_filterMap.mp hmem
            rcases hgroups q hq with h | h
            · exact absurd h (by simp)
            · exact h hqv
        | group gn =>
          have hfin : finishRecording (.group gn) hk st
              = (.assigned, { st with groups := setGroupHotkey gn hk st.groups }) := by
            unfold finishRecording
            rw [hfl, hfg]
          rw [hfin]
          unfold HotkeysDistinct liveHotkeys at hinv ⊢
          simp only
          apply setGroupHotkey_hks_nodup gn hk st.groups _ hgk hinv
          · intro q hq hqt
            rcases hgroups q hq with h | h
            · exfalso
              apply hqt
              injection h with he
              exact he.symm
            · exact h
          · intro hmem
            obtain ⟨p, hp, hpv⟩ := List.mem_map.mp hmem
            rcases hlevels p hp with h | h
            · exact absurd h (by simp)
            · exact h hpv

/-- Witness for C3: with a level 5 already on the sample hotkey and a group
G on another, recording the same hotkey for level 7 is rejected unchanged,
and the distinct-hotkeys invariant is verified at the same state. -/
theorem C3_hotkey_conflict_rejected_witness :
    (finishRecording (.level "7") sampleHotkeyA
        ⟨[("5", sampleHotkeyA)], [("G", ⟨["1", "2"], some sampleHotkeyB⟩)]⟩).1
      ≠ RecOutcome.assigned
    ∧ (finishRecording (.level "7") sampleHotkeyA
        ⟨[("5", sampleHotkeyA)], [("G", ⟨["1", "2"], some sampleHotkeyB⟩)]⟩).2
      = ⟨[("5", sampleHotkeyA)], [("G", ⟨["1", "2"], some sampleHotkeyB⟩)]⟩
    ∧ HotkeysDistinct (finishRecording (.level "7") sampleHotkeyA
        ⟨[("5", sampleHotkeyA)], [("G", ⟨["1", "2"], some sampleHotkeyB⟩)]⟩).2 := by
  have h := C3_hotkey_conflict_rejected (.level "7") sampleHotkeyA
    ⟨[("5", sampleHotkeyA)], [("G", ⟨["1", "2"], some sampleHotkeyB⟩)]⟩
    (by unfold NodupKeys; decide) (by unfold NodupKeys; decide)
    (by unfold HotkeysDistinct liveHotkeys; decide)
  have hrej := h.1 (Or.inl ⟨("5", sampleHotkeyA), by decide, by decide, by decide⟩)
  exact ⟨hrej.1, hrej.2, h.2⟩

/-! ### Claim C5: group size and at-most-one-group invariants -/

theorem mem_dictSet {β : Type} {k : String} {v : β} {q : String × β} :
    ∀ {m : List (String × β)}, q ∈ dictSet k v m → q = (k, v) ∨ q ∈ m := by
  intro m
  induction m with
  | nil =>
    intro h
    rw [dictSet] at h
    rcases List.mem_cons.mp h with h1 | h1
    · exact Or.inl h1
    · simp at h1
  | cons p rest ih =>
    intro h
    rw [dictSet] at h
    by_cases hp : p.1 = k
    · rw [if_pos hp] at h
      rcases List.mem_cons.mp h with h1 | h1
      · exact Or.inl h1
      · exact Or.inr (List.mem_cons_of_mem _ h1)
    · rw [if_neg hp] at h
      rcases List.mem_cons.mp h with h1 | h1
      · exact Or.inr (by rw [h1]; exact List.mem_cons_self _ _)
      · rcases ih h1 with h2 | h2
        · exact Or.inl h2
        · exact Or.inr (List.mem_cons_of_mem _ h2)

theorem pairwise_dictSet {β : Type} (R : (String × β) → (String × β) → Prop)
    (k : String) (v : β) :
    ∀ (m : List (String × β)), m.Pairwise R →
      (∀ q ∈ m, R q (k, v) ∧ R (k, v) q) → (dictSet k v m).Pairwise R := by
  intro m
  induction m with
  | nil =>
    intro _ _
    rw [dictSet]
    exact List.pairwise_singleton R (k, v)
  | cons p rest ih =>
    intro hp hall
    rw [List.pairwise_cons] at hp
    rw [dictSet]
    by_cases hpk : p.1 = k
    · rw [if_pos hpk, List.pairwise_cons]
      exact ⟨fun q hq => (hall q (List.mem_cons_of_mem _ hq)).2, hp.2⟩
    · rw [if_neg hpk, List.pairwise_cons]
      constructor
      · intro q hq
        rcases mem_dictSet hq with h1 | h1
        · rw [h1]
          exact (hall p (List.mem_cons_self _ _)).1
        · exact hp.1 q h1
      · exact ih hp.2 (fun q hq => hall q (List.mem_cons_of_mem _ hq))

theorem pyDedup_spec (l : List String) :
    ∀ seen, (pyDedup seen l).Nodup ∧ ∀ x ∈ pyDedup seen l, x ∉ seen := by
  induction l with
  | nil =>
    intro seen
    exact ⟨List.nodup_nil, by simp [pyDedup]⟩
  | cons x xs ih =>
    intro seen
    rw [pyDedup]
    by_cases hx : seen.contains x = true
    · rw [if_pos hx]
      exact ih seen
    · rw [if_neg hx]
      obtain ⟨hnd, hnot⟩ := ih (x :: seen)
      constructor
      · rw [List.nodup_cons]
        exact ⟨fun hmem => hnot x hmem (List.mem_cons_self _ _), hnd⟩
      · intro y hy hyseen
        rcases List.mem_cons.mp hy with h | h
        · apply hx
          rw [h] at hyseen
          simpa using hyseen
        · exact hnot y h (List.mem_cons_of_mem _ hyseen)

theorem stripEntry_some {nums : List String} {p b : String × Group}
    (h : stripEntry nums p = some b) :
    b = (p.1, { p.2 with levels := p.2.levels.filter (fun n => !nums.contains n) })
      ∧ 2 ≤ (p.2.levels.filter (fun n => !nums.contains n)).length := by
  have h2 : (if (p.2.levels.filter (fun n => !nums.contains n)).length < 2
      then none
      else some (p.1, { p.2 with
        levels := p.2.levels.filter (fun n => !nums.contains n) })) = some b := h
  by_cases hlen : (p.2.levels.filter (fun n => !nums.contains n)).length < 2
  · rw [if_pos hlen] at h2
    exact absurd h2 (by simp)
  · rw [if_neg hlen] at h2
    injection h2 with h2
    exact ⟨h2.symm, Nat.le_of_not_lt hlen⟩

theorem stripEntry_none {nums : List String} {p : String × Group}
    (h : (p.2.levels.filter (fun n => !nums.contains n)).length < 2) :
    stripEntry nums p = none := by
  have h2 : stripEntry nums p
      = (if (p.2.levels.filter (fun n => !nums.contains n)).length < 2
         then none
         else some (p.1, { p.2 with
           levels := p.2.levels.filter (fun n => !nums.contains n) })) := rfl
  rw [h2, if_pos h]

/-- Claim C5, counterexample: reconciliation applied to group member lists
can place one level number inside two groups at once: from the valid state
with groups g1 = 1,2 and g2 = 3,4, the remap produced when the level named
Alpha moves from number 1 to number 3 rewrites g1 to 3,2 while g2 keeps 3,
so after reconciliation the number 3 belongs to both groups, violating the
claimed invariant. -/
theorem C5_counterexample :
    GroupsOK [("g1", ⟨["1", "2"], none⟩), ("g2", ⟨["3", "4"], none⟩)]
    ∧ (reconcileNumbers [mkLevel "1" "Alpha"] [mkLevel "3" "Alpha"]
        ⟨[], [("g1", ⟨["1", "2"], none⟩), ("g2", ⟨["3", "4"], none⟩)]⟩).1.groups
      = [("g1", ⟨["3", "2"], none⟩), ("g2", ⟨["3", "4"], none⟩)]
    ∧ ¬ GroupsOK [("g1", ⟨["3", "2"], none⟩), ("g2", ⟨["3", "4"], none⟩)] := by
  refine ⟨?_, by decide, ?_⟩
  · unfold GroupsOK
    decide
  · unfold GroupsOK
    decide

/-- Claim C5, amended: creating a group from at least 2 distinct selected
numbers restores the full group invariant (every group has at least 2
members, member lists carry no duplicates, and a level number belongs to
at most one group), and a group whose membership would drop below 2 is
dissolved entirely, its record and hotkey discarded; after reconciliation
the groups keep their names and member counts (so sizes stay at least 2),
but nodup member lists and the at-most-one-group invariant are only
preserved when the remap renumbering is injective on the union of all
group members, a condition the counterexample shows the code does not
guarantee. -/
theorem C5_group_invariants :
    (∀ (nums : List String) (levels : List LevelRec) (groups : List (String × Group)),
      GroupsOK groups → 2 ≤ (pyDedup [] nums).length →
      GroupsOK (createGroup nums levels groups))
    ∧ (∀ (nums : List String) (levels : List LevelRec) (groups : List (String × Group)),
        NodupKeys groups → 2 ≤ (pyDedup [] nums).length →
        ∀ p ∈ groups,
          (p.2.levels.filter (fun n => !(pyDedup [] nums).contains n)).length < 2 →
          dictGet p.1 (createGroup nums levels groups)
            = if p.1 = deriveGroupName (pyDedup [] nums) levels
              then some ⟨pyDedup [] nums, none⟩ else none)
    ∧ (∀ (remap : List (String × String)) (groups : List (String × Group)),
        GroupsOK groups →
        (∀ m1 ∈ allMembers groups, ∀ m2 ∈ allMembers groups,
          remapFn remap m1 = remapFn remap m2 → m1 = m2) →
        GroupsOK (applyRemapGroups remap groups))
    ∧ (∀ (remap : List (String × String)) (groups : List (String × Group)),
        ∀ p ∈ applyRemapGroups remap groups, ∃ q ∈ groups,
          p.1 = q.1 ∧ p.2.levels.length = q.2.levels.length) := by
  have hcreate : ∀ (nums : List String) (levels : List LevelRec)
      (groups : List (String × Group)), 2 ≤ (pyDedup [] nums).length →
      createGroup nums levels groups
        = dictSet (deriveGroupName (pyDedup [] nums) levels) ⟨pyDedup [] nums, none⟩
            (stripMembers (pyDedup [] nums) groups) := by
    intro nums levels groups hsz
    unfold createGroup
    rw [if_neg (Nat.not_lt.mpr hsz)]
  refine ⟨?_, ?_, ?_, ?_⟩
  · intro nums levels groups hok hsz
    rw [hcreate nums levels groups hsz]
    constructor
    · intro p hp
      rcases mem_dictSet hp with h1 | h1
      · rw [h1]
        exact ⟨hsz, (pyDedup_spec nums []).1⟩
      · obtain ⟨q, hq, hfq⟩ := List.mem_filterMap.mp h1
        obtain ⟨hb, hlen⟩ := stripEntry_some hfq
        rw [hb]
        exact ⟨hlen, List.Nodup.filter _ (hok.1 q hq).2⟩
    · apply pairwise_dictSet
      · rw [stripMembers, List.pairwise_filterMap]
        apply List.Pairwise.imp ?_ hok.2
        intro q q2 hdis b hb b2 hb2
        obtain ⟨hbval, _⟩ := stripEntry_some hb
        obtain ⟨hb2val, _⟩ := stripEntry_some hb2
        rw [hbval, hb2val]
        intro n hn hn2
        simp only [List.mem_filter] at hn hn2
        exact hdis n hn.1 hn2.1
      · intro q hq
        obtain ⟨q0, _, hfq⟩ := List.mem_filterMap.mp hq
        obtain ⟨hbval, _⟩ := stripEntry_some hfq
        rw [hbval]
        constructor
        · intro n hn
          simp only [List.mem_filter] at hn
          have := hn.2
          simp only [Bool.not_eq_eq_eq_not, Bool.not_true] at this
          simpa using this
        · intro n hn hn2
          simp only [List.mem_filter] at hn2
          have := hn2.2
          simp only [Bool.not_eq_eq_eq_not, Bool.not_true] at this
          rw [show ((pyDedup [] nums).contains n = false)
              ↔ ¬((pyDedup [] nums).contains n = true) by simp] at this
          apply this
          simpa using hn
  · intro nums levels groups hgk hsz p hp hlen
    rw [hcreate nums levels groups hsz, dictGet_set]
    by_cases hname : p.1 = deriveGroupName (pyDedup [] nums) levels
    · rw [if_pos hname, if_pos hname]
    · rw [if_neg hname, if_neg hname]
      rw [dictGet_eq_none_iff]
      intro r hr hr1
      obtain ⟨q, hq, hfq⟩ := List.mem_filterMap.mp hr
      obtain ⟨hbval, hblen⟩ := stripEntry_some hfq
      have hq1 : q.1 = p.1 := by
        rw [hbval] at hr1
        exact hr1
      have hw : (p.1, q.2) ∈ groups := by
        rw [← hq1]
        exact hq
      have hq2 : q.2 = p.2 := nodupKeys_value_unique hgk hp hw
      rw [hq2] at hblen
      exact absurd hblen (Nat.not_le.mpr hlen)
  · intro remap groups hok hinj
    have hmm : ∀ (q : String × Group), q ∈ groups → ∀ n ∈ q.2.levels,
        n ∈ allMembers groups := by
      intro q hq n hn
      rw [allMembers, List.mem_flatten]
      exact ⟨q.2.levels, List.mem_map.mpr ⟨q, hq, rfl⟩, hn⟩
    constructor
    · intro p hp
      obtain ⟨q, hq, hpq⟩ := List.mem_map.mp hp
      rw [← hpq]
      simp only
      constructor
      · rw [show applyRemapMembers remap q.2.levels
            = q.2.levels.map (remapFn remap) from rfl, List.length_map]
        exact (hok.1 q hq).1
      · rw [show applyRemapMembers remap q.2.levels
            = q.2.levels.map (remapFn remap) from rfl]
        apply List.Nodup.map_on ?_ (hok.1 q hq).2
        intro x hx y hy hxy
        exact hinj x (hmm q hq x hx) y (hmm q hq y hy) hxy
    · rw [applyRemapGroups, List.pairwise_map]
      apply List.Pairwise.imp_of_mem ?_ hok.2
      intro q q2 hq hq2 hdis
      simp only
      intro n hn hn2
      rw [show applyRemapMembers remap q.2.levels
          = q.2.levels.map (remapFn remap) from rfl] at hn
      rw [show applyRemapMembers remap q2.2.levels
          = q2.2.levels.map (remapFn remap) from rfl] at hn2
      obtain ⟨m1, hm1, hm1v⟩ := List.mem_map.mp hn
      obtain ⟨m2, hm2, hm2v⟩ := List.mem_map.mp hn2
      have hmeq : m1 = m2 := by
        apply hinj m1 (hmm q hq m1 hm1) m2 (hmm q2 hq2 m2 hm2)
        rw [hm1v, hm2v]
      rw [hmeq] at hm1
      exact hdis m2 hm1 hm2
  · intro remap groups p hp
    obtain ⟨q, hq, hpq⟩ := List.mem_map.mp hp
    refine ⟨q, hq, ?_, ?_⟩
    · rw [← hpq]
    · rw [← hpq]
      simp only
      rw [show applyRemapMembers remap q.2.levels
          = q.2.levels.map (remapFn remap) from rfl, List.length_map]

/-- Witness for C5: creating a group from levels 101 and 103 while 103 is
in another 2-member group dissolves that group and the invariant holds
afterwards; a non-colliding remap keeps the invariant through
reconciliation. -/
theorem C5_group_invariants_witness :
    GroupsOK (createGroup ["101", "103"] [mkLevel "101" "A", mkLevel "103" "C"]
        [("G", ⟨["103", "104"], some sampleHotkeyA⟩)])
    ∧ dictGet "G" (createGroup ["101", "103"] [mkLevel "101" "A", mkLevel "103" "C"]
        [("G", ⟨["103", "104"], some sampleHotkeyA⟩)]) = none
    ∧ GroupsOK (applyRemapGroups [("1", "9")]
        [("g1", ⟨["1", "2"], none⟩), ("g2", ⟨["3", "4"], none⟩)]) := by
  refine ⟨?_, ?_, ?_⟩
  · apply C5_group_invariants.1 ["101", "103"] [mkLevel "101" "A", mkLevel "103" "C"]
      [("G", ⟨["103", "104"], some sampleHotkeyA⟩)]
    · unfold GroupsOK
      decide
    · decide
  · have h := C5_group_invariants.2.1 ["101", "103"]
      [mkLevel "101" "A", mkLevel "103" "C"]
      [("G", ⟨["103", "104"], some sampleHotkeyA⟩)]
      (by unfold NodupKeys; decide) (by decide)
      ("G", ⟨["103", "104"], some sampleHotkeyA⟩) (by decide) (by decide)
    rw [h]
    decide
  · apply C5_group_invariants.2.2.1 [("1", "9")]
      [("g1", ⟨["1", "2"], none⟩), ("g2", ⟨["3", "4"], none⟩)]
    · unfold GroupsOK
      decide
    · intro m1 hm1 m2 hm2 h
      revert h
      unfold allMembers at hm1 hm2
      fin_cases hm1 <;> fin_cases hm2 <;> simp [remapFn, dictGet]

end LevelManager
